import Mathlib

/-!
# chihaya middleware: passkey approval, peer limit, traffic push

A shallow embedding of `middleware/passkeyapproval/passkeyapproval.go`, of
`HandleAnnounce` of `middleware/peerlimit/peerlimit.go` and of the delta
computation of `middleware/trafficpush/trafficpush.go`, and theorems about
them.

Conventions of the embedding.

* A Go `string` is a `String`, a Go `[]byte` is a list of bytes, a Go `int`
  is an `Int`, a Go `error` is its message, and `nil` is `none`.
* Code of the Go standard library (base64, JSON, URL escaping, request
  construction) is not part of the repository; the hook receives it as the
  record `Stdlib`.  The cipher is the interface `cipher.AEAD`, as in the
  field `aesGCM cipher.AEAD` of the hook.
* The Redis pool and the HTTP client are external services.  Each is a
  transition function on a state of its own, and every call the hook makes
  is appended to a trace, so that "no cache lookup" and "no authority
  request" are statements about the trace.
* Logging has no influence on the returned values and is left out, as are
  `pool.Get()` and the deferred `conn.Close()`.
* A slice expression out of range is a run-time panic; it is modelled by
  `none` and surfaces as `panic` in the results.
* A finite `float64` is the rational number it denotes, the two zeros taken
  as one; a conversion or an arithmetic operation yields the `float64`
  nearest to the exact result, ties going to the even significand.
-/

/-- Go `error` values, carried as their message. -/
abbrev GoError := String

/-- Go `[]byte`. -/
abbrev Bytes := List (Fin 256)

deriving instance DecidableEq for Except

/-- Go slice expression `data[:n]`; `none` stands for the out-of-range panic. -/
def sliceTo (data : Bytes) (n : Nat) : Option Bytes :=
  if n ≤ data.length then some (data.take n) else none

/-- Go slice expression `data[n:]`; `none` stands for the out-of-range panic. -/
def sliceFrom (data : Bytes) (n : Nat) : Option Bytes :=
  if n ≤ data.length then some (data.drop n) else none

namespace bittorrent

/-- `bittorrent.ClientError`, a string type. -/
abbrev ClientError := String

/-- `bittorrent.RouteParams`: the named parameters of the matched route.  Only
`ByName` is used by the hook; it answers `""` for a name that is not there. -/
structure RouteParams where
  ByName : String → String

/-- `bittorrent.Params`: the query parameters of the announce.  `String`
returns the value and whether the key is present, as in the interface method
`String(key string) (string, bool)`. -/
structure Params where
  String : String → String × Bool

/-- `bittorrent.Event`. -/
inductive Event where
  | None
  | Started
  | Stopped
  | Completed
deriving DecidableEq, Repr

/-- `bittorrent.Peer`; `ID` is `Peer.ID.String()`, `IP` is `Peer.IP.String()`. -/
structure Peer where
  ID : String := ""
  Port : Nat := 0
  IP : String := ""
deriving DecidableEq, Repr

/-- `bittorrent.AnnounceRequest`, restricted to the fields the hooks read;
`Params` may be nil, `InfoHash` is `InfoHash.String()`, the counters are
`uint64`. -/
structure AnnounceRequest where
  Params : Option Params
  Event : Event := .None
  InfoHash : String := ""
  Peer : Peer := {}
  Uploaded : Nat := 0
  Downloaded : Nat := 0
  Left : Nat := 0

end bittorrent

namespace cipher

/-- The interface `cipher.AEAD`.  `Seal` appends the sealed plaintext to `dst`,
`Open` appends the opened plaintext to `dst` or fails. -/
structure AEAD where
  NonceSize : Nat
  Seal : (dst nonce plaintext additionalData : Bytes) → Bytes
  Open : (dst nonce ciphertext additionalData : Bytes) → Except GoError Bytes

end cipher

namespace redis

/-- The commands the hook sends with `conn.Do`. -/
inductive Command where
  | SISMEMBER (key member : String)
  | SADD (key member : String)
  | EXPIRE (key : String) (seconds : Int)
deriving DecidableEq, Repr

/-- A `*redis.Pool` seen from the hook, over a store state `ρ`.
`SISMEMBER` is `redis.Bool(conn.Do("SISMEMBER", key, member))` with its Go
result pair `(bool, error)`; the replies of `SADD` and `EXPIRE` are discarded
by the hook, so only their effect on the store is kept. -/
structure Pool (ρ : Type) where
  SISMEMBER : ρ → String → String → (Bool × Option GoError) × ρ
  SADD : ρ → String → String → ρ
  EXPIRE : ρ → String → Int → ρ

end redis

namespace http

/-- The part of `*http.Request` the hook sets. -/
structure Request where
  Method : String
  URL : String
  Header : List (String × String)
deriving DecidableEq, Repr

/-- The part of `*http.Response` the hook reads; `Body` is what
`io.ReadAll(r.Body)` returns. -/
structure Response where
  StatusCode : Int
  Body : Bytes
deriving DecidableEq, Repr

/-- An `*http.Client` over an endpoint state `η`: `Do` returns the Go result
pair `(*Response, error)`. -/
structure Client (η : Type) where
  Do : η → Request → (Option Response × Option GoError) × η

end http

namespace passkeyapproval

open bittorrent

mutual

/-- Dynamic value of an `interface{}` field of `Payload`: the empty interface,
a boolean, a string, an integer (type `int`), a finite `float64` given by the
rational number it denotes, a slice `[]interface{}` or a map
`map[string]interface{}` given by its entries. -/
inductive Any where
  | nil
  | bool (b : Bool)
  | string (s : String)
  | int (n : Int)
  | float64 (x : Rat)
  | slice (items : Items)
  | map (entries : Entries)
deriving DecidableEq, Repr

/-- The elements of a slice `[]interface{}`. -/
inductive Items where
  | nil
  | cons (head : Any) (tail : Items)
deriving DecidableEq, Repr

/-- The entries of a map `map[string]interface{}`. -/
inductive Entries where
  | nil
  | cons (key : String) (value : Any) (tail : Entries)
deriving DecidableEq, Repr

end

/-- Go struct `Payload`. -/
structure Payload where
  Passkey : String
  Timestamp : Int
  Fd : Any
  Pd : Any
deriving DecidableEq, Repr

/-- A `context.Context` as the hooks see it: the value stored under
`bittorrent.RouteParamsKey` and the value stored under `PasskeyPayloadKey`. -/
structure Context where
  RouteParams : Option RouteParams
  PasskeyPayload : Option Payload

/-- `context.WithValue(ctx, PasskeyPayloadKey, payload)`. -/
def Context.WithPayload (ctx : Context) (payload : Payload) : Context :=
  { ctx with PasskeyPayload := some payload }

def ErrMissingPasskey : ClientError := "missing passkey"

def ErrUnapprovedPasskey : ClientError := "unapproved passkey"

def ErrInvalidPasskey : ClientError := "invalid passkey"

/-- Go struct `Config`; durations are in nanoseconds. -/
structure Config where
  RedisBroker : String
  SetKey : String
  HTTPURL : String
  HTTPTimeout : Int
  HTTPAPIKeyHeader : String
  HTTPAPIKey : String
  CacheTTLSeconds : Int
  RedisReadTimeout : Int
  RedisWriteTimeout : Int
  RedisConnectTimeout : Int
  EncryptionKey : String

/-- The standard-library functions the hook calls.

* `DecodeString`, `EncodeToString`: `base64.URLEncoding`.
* `Unmarshal`: `json.Unmarshal(plaintext, &payload)` on a zero `Payload`.
* `Marshal`: `json.Marshal(payload)`.
* `UnmarshalValid`: the field `vr.Data.Valid` after
  `_ = json.Unmarshal(bodyBytes, &vr)`, whose error is ignored.
* `QueryEscape`: `url.QueryEscape`.
* `NewRequestErr`: the error of `http.NewRequest(http.MethodGet, u, nil)`. -/
structure Stdlib where
  DecodeString : String → Except GoError Bytes
  EncodeToString : Bytes → String
  Unmarshal : Bytes → Except GoError Payload
  Marshal : Payload → Except GoError Bytes
  UnmarshalValid : Bytes → Bool
  QueryEscape : String → String
  NewRequestErr : String → Option GoError

/-- Go struct `hook`; `pool` and `aesGCM` may be nil. -/
structure hook (ρ η : Type) where
  cfg : Config
  pool : Option (redis.Pool ρ)
  httpClient : http.Client η
  aesGCM : Option cipher.AEAD

/-- What a call of `decrypt` produces: `(&payload, nil)`, `(nil, err)`, or a
run-time panic. -/
inductive DecryptResult where
  | ok (payload : Payload)
  | error (err : GoError)
  | panic
deriving DecidableEq, Repr

/-- Method `(h *hook) decrypt`. -/
def hook.decrypt {ρ η : Type} (lib : Stdlib) (h : hook ρ η) (ciphertext : String) :
    DecryptResult :=
  match h.aesGCM with
  | none => .panic
  | some aesGCM =>
    match lib.DecodeString ciphertext with
    | .error err => .error err
    | .ok data =>
      let nonceSize := aesGCM.NonceSize
      if data.length < nonceSize then .error "ciphertext too short"
      else
        match sliceTo data nonceSize, sliceFrom data nonceSize with
        | some nonce, some ciphertextBytes =>
          match aesGCM.Open [] nonce ciphertextBytes [] with
          | .error err => .error err
          | .ok plaintext =>
            match lib.Unmarshal plaintext with
            | .error err => .error err
            | .ok payload => .ok payload
        | _, _ => .panic

/-- Function `routeParam`. -/
def routeParam (ctx : Context) (name : String) : String :=
  match ctx.RouteParams with
  | none => ""
  | some rp => rp.ByName name

/-- The lookup
`if v := req.Params; v != nil { if c, ok := v.String(name); ok { cur = c } }`:
the new value of the variable `cur`. -/
def paramOr (req : AnnounceRequest) (name : String) (cur : String) : String :=
  match req.Params with
  | none => cur
  | some v => if (v.String name).2 then (v.String name).1 else cur

/-- The variable `ciphertext` of `HandleAnnounce` when line 227 is reached
(encryption mode). -/
def credentialOf (ctx : Context) (req : AnnounceRequest) : String :=
  let ciphertext := routeParam ctx "credential"
  let ciphertext := if ciphertext = "" then paramOr req "credential" ciphertext else ciphertext
  if ciphertext = "" then
    let ciphertext := routeParam ctx "passkey"
    if ciphertext = "" then paramOr req "passkey" ciphertext else ciphertext
  else ciphertext

/-- The variable `passkey` of `HandleAnnounce` when line 251 is reached
(encryption disabled). -/
def passkeyOf (ctx : Context) (req : AnnounceRequest) : String :=
  let passkey := routeParam ctx "passkey"
  if passkey = "" then paramOr req "passkey" passkey else passkey

/-- The calls `HandleAnnounce` makes, in order. -/
inductive Event where
  | decrypt (ciphertext : String)
  | redis (cmd : redis.Command)
  | http (req : http.Request)
deriving DecidableEq, Repr

/-- The `error` result of `HandleAnnounce`: `nil`, a client error, or a
run-time panic. -/
inductive Status where
  | nil
  | error (err : ClientError)
  | panic
deriving DecidableEq, Repr

/-- The result of `HandleAnnounce`: the returned context and error, the calls
made, and the states of the cache store and of the authority afterwards. -/
structure Result (ρ η : Type) where
  ctx : Context
  err : Status
  trace : List Event
  store : ρ
  authority : η

/-- State of `HandleAnnounce` after line 254: either it has returned, or the
variable `passkey` is set and `ctx` is the current context. -/
inductive Resolution where
  | returned (err : Status)
  | passkey (passkey : String) (ctx : Context)

/-- Lines 202-254 of `HandleAnnounce`: read the credential and, in encryption
mode, decrypt it. -/
def resolve {ρ η : Type} (lib : Stdlib) (h : hook ρ η) (ctx : Context)
    (req : AnnounceRequest) : Resolution × List Event :=
  match h.aesGCM with
  | some _ =>
    let ciphertext := credentialOf ctx req
    if ciphertext = "" then (.returned (.error ErrMissingPasskey), [])
    else
      match h.decrypt lib ciphertext with
      | .panic => (.returned .panic, [.decrypt ciphertext])
      | .error _ => (.returned (.error ErrInvalidPasskey), [.decrypt ciphertext])
      | .ok payload => (.passkey payload.Passkey (ctx.WithPayload payload), [.decrypt ciphertext])
  | none =>
    let passkey := passkeyOf ctx req
    if passkey = "" then (.returned (.error ErrMissingPasskey), [])
    else (.passkey passkey ctx, [])

/-- The URL built at lines 279-286: `q.Encode()` of the one-entry
`url.Values` appended to the configured URL. -/
def authorityURL (lib : Stdlib) (HTTPURL passkey : String) : String :=
  let q := lib.QueryEscape "passkey" ++ "=" ++ lib.QueryEscape passkey
  if HTTPURL.toList.contains '?' then HTTPURL ++ "&" ++ q else HTTPURL ++ "?" ++ q

/-- The request of lines 292-298: a GET of `u` with the API key header when a
key is configured.  The header name is kept as configured (`Header.Set`
stores it in canonical form). -/
def authorityRequest (cfg : Config) (u : String) : http.Request :=
  { Method := "GET", URL := u,
    Header := if cfg.HTTPAPIKey ≠ "" then [(cfg.HTTPAPIKeyHeader, cfg.HTTPAPIKey)] else [] }

/-- Outcome of one stage of `HandleAnnounce`: whether it approved, the calls it
made, and the state of the service it talked to. -/
structure Stage (σ : Type) where
  approved : Bool
  events : List Event
  state : σ

/-- Lines 256-276 of `HandleAnnounce`, the cache lookup.  It approves when
`err == nil && ok` holds for the result of `SISMEMBER`; without a pool it does
nothing. -/
def lookup {ρ η : Type} (h : hook ρ η) (passkey : String) (r : ρ) : Stage ρ :=
  match h.pool with
  | some pool =>
    match pool.SISMEMBER r h.cfg.SetKey passkey with
    | ((ok, err), r) =>
      ⟨decide (err = none ∧ ok = true), [.redis (.SISMEMBER h.cfg.SetKey passkey)], r⟩
  | none => ⟨false, [], r⟩

/-- Lines 278-314 of `HandleAnnounce`, the exchange with the authority.  It
approves when the test `r.StatusCode/100 == 2 && vr.Data.Valid` of line 314 is
reached and holds; every other path falls through to line 331. -/
def consult {ρ η : Type} (lib : Stdlib) (h : hook ρ η) (passkey : String) (s : η) : Stage η :=
  if h.cfg.HTTPURL ≠ "" then
    let u := authorityURL lib h.cfg.HTTPURL passkey
    match lib.NewRequestErr u with
    | some _ => ⟨false, [], s⟩
    | none =>
      let req := authorityRequest h.cfg u
      match h.httpClient.Do s req with
      | ((_, some _), s) => ⟨false, [.http req], s⟩
      | ((none, none), s) => ⟨false, [.http req], s⟩
      | ((some resp, none), s) =>
        let valid := lib.UnmarshalValid resp.Body
        ⟨decide (Int.tdiv resp.StatusCode 100 = 2 ∧ valid = true), [.http req], s⟩
  else ⟨false, [], s⟩

/-- Lines 315-322 of `HandleAnnounce`, the write-back of an approved passkey:
`SADD` then `EXPIRE`, when a pool and a positive TTL are configured.  Returns
the commands sent and the state of the store afterwards. -/
def remember {ρ η : Type} (h : hook ρ η) (passkey : String) (r : ρ) : List Event × ρ :=
  match h.pool with
  | some pool =>
    if h.cfg.CacheTTLSeconds > 0 then
      let r := pool.SADD r h.cfg.SetKey passkey
      if h.cfg.CacheTTLSeconds > 0 then
        ([.redis (.SADD h.cfg.SetKey passkey),
            .redis (.EXPIRE h.cfg.SetKey h.cfg.CacheTTLSeconds)],
          pool.EXPIRE r h.cfg.SetKey h.cfg.CacheTTLSeconds)
      else ([.redis (.SADD h.cfg.SetKey passkey)], r)
    else ([], r)
  | none => ([], r)

/-- Lines 256-331 of `HandleAnnounce`: return `nil` on a cache hit (line 269);
otherwise ask the authority and return `nil` after the write-back when it
approves (line 323), `ErrUnapprovedPasskey` when it does not (line 331). -/
def checkPasskey {ρ η : Type} (lib : Stdlib) (h : hook ρ η) (ctx : Context)
    (passkey : String) (trace : List Event) (r : ρ) (s : η) : Result ρ η :=
  let cache := lookup h passkey r
  if cache.approved = true then ⟨ctx, .nil, trace ++ cache.events, cache.state, s⟩
  else
    let verdict := consult lib h passkey s
    if verdict.approved = true then
      let written := remember h passkey cache.state
      ⟨ctx, .nil, trace ++ cache.events ++ verdict.events ++ written.1, written.2,
        verdict.state⟩
    else
      ⟨ctx, .error ErrUnapprovedPasskey, trace ++ cache.events ++ verdict.events, cache.state,
        verdict.state⟩

/-- Method `(h *hook) HandleAnnounce`, run against a cache store in state `r`
and an authority in state `s`. -/
def hook.HandleAnnounce {ρ η : Type} (lib : Stdlib) (h : hook ρ η) (ctx : Context)
    (req : AnnounceRequest) (r : ρ) (s : η) : Result ρ η :=
  match resolve lib h ctx req with
  | (.returned err, trace) => ⟨ctx, err, trace, r, s⟩
  | (.passkey passkey ctx, trace) => checkPasskey lib h ctx passkey trace r s

/-- The helper `encrypt` of the tests, for a given nonce: marshal the payload,
seal it behind the nonce, encode.  A marshalling error is ignored as in the
tests and leaves no plaintext. -/
def encrypt (lib : Stdlib) (aesGCM : cipher.AEAD) (nonce : Bytes) (payload : Payload) : String :=
  let payloadBytes := match lib.Marshal payload with
    | .ok b => b
    | .error _ => []
  lib.EncodeToString (aesGCM.Seal nonce nonce payloadBytes [])

/-! ## Vocabulary of the specification -/

/-- The value of a query parameter: empty when `Params` is nil or the key is
absent. -/
def queryParam (req : AnnounceRequest) (name : String) : String :=
  match req.Params with
  | none => ""
  | some v => if (v.String name).2 then (v.String name).1 else ""

/-- The first non-empty string of a list of probes, if any. -/
def firstNonEmpty (probes : List String) : Option String :=
  probes.find? (fun s => s ≠ "")

/-- The four probes of the credential extractor in the order of the
specification: route "credential", query "credential", route "passkey",
query "passkey". -/
def probes (ctx : Context) (req : AnnounceRequest) : List String :=
  [routeParam ctx "credential", queryParam req "credential",
    routeParam ctx "passkey", queryParam req "passkey"]

/-- The arguments of the `decrypt` calls of a trace. -/
def decrypted : List Event → List String
  | [] => []
  | .decrypt c :: t => c :: decrypted t
  | _ :: t => decrypted t

/-- The cache commands of a trace. -/
def commands : List Event → List redis.Command
  | [] => []
  | .redis c :: t => c :: commands t
  | _ :: t => commands t

/-- The authority requests of a trace. -/
def requests : List Event → List http.Request
  | [] => []
  | .http q :: t => q :: requests t
  | _ :: t => requests t

/-- The raw string `HandleAnnounce` goes on to use: the argument of `decrypt`
in encryption mode, the passkey taken verbatim otherwise; `none` when the
hook returns before using any. -/
def usedCredential {ρ η : Type} (lib : Stdlib) (h : hook ρ η) (ctx : Context)
    (req : AnnounceRequest) : Option String :=
  match resolve lib h ctx req with
  | (_, .decrypt c :: _) => some c
  | (.passkey passkey _, []) => some passkey
  | _ => none

/-- What a run gives back to the host and shows to the authority: the returned
context and error, the authority's state and the requests it received. -/
def Result.outcome {ρ η : Type} (res : Result ρ η) : Context × Status × η × List http.Request :=
  (res.ctx, res.err, res.authority, requests res.trace)

/-- The write commands of a trace: every cache command but the membership
test. -/
def writes : List Event → List redis.Command
  | [] => []
  | .redis (.SADD key member) :: t => .SADD key member :: writes t
  | .redis (.EXPIRE key seconds) :: t => .EXPIRE key seconds :: writes t
  | _ :: t => writes t

/-- The cache approves the passkey: a pool is configured and `SISMEMBER`
answers `true` without error. -/
def CacheHit {ρ η : Type} (h : hook ρ η) (passkey : String) (r : ρ) : Prop :=
  ∃ pool, h.pool = some pool ∧ (pool.SISMEMBER r h.cfg.SetKey passkey).1 = (true, none)

/-- The authority approves the passkey: a URL is configured, the request is
built and performed without error, the response has a status in 200..299 and
a body whose `data.valid` is true. -/
def AuthorityApproves {ρ η : Type} (lib : Stdlib) (h : hook ρ η) (passkey : String) (s : η) :
    Prop :=
  h.cfg.HTTPURL ≠ ""
    ∧ lib.NewRequestErr (authorityURL lib h.cfg.HTTPURL passkey) = none
    ∧ ∃ resp, (h.httpClient.Do s
          (authorityRequest h.cfg (authorityURL lib h.cfg.HTTPURL passkey))).1 = (some resp, none)
        ∧ 200 ≤ resp.StatusCode ∧ resp.StatusCode ≤ 299
        ∧ lib.UnmarshalValid resp.Body = true

/-! ## Concrete stand-ins for the external parts

They play the role of the mocks of the Go tests: a base64 codec, a JSON codec
for `Payload`, a cipher, a cache store and an authority, all executable, used
to run the hook on concrete requests. -/

namespace sample

/-- The URL-safe base64 alphabet (`encodeURL` of `encoding/base64`). -/
def encodeURL : List Char :=
  "ABCDEFGHIJKLMNOPQRSTUVWXYZabcdefghijklmnopqrstuvwxyz0123456789-_".toList

/-- The 6-bit value of an alphabet character. -/
def index (c : Char) : Option Nat :=
  if encodeURL.indexOf c < 64 then some (encodeURL.indexOf c) else none

/-- The alphabet character of a 6-bit value. -/
def digit (v : Nat) : Char := encodeURL.getD v '='

/-- The low eight bits of a number, as a byte. -/
def byte (n : Nat) : Fin 256 := ⟨n % 256, Nat.mod_lt n (by decide)⟩

/-- Decoding of padded base64, four characters at a time. -/
def decodeQuanta : List Char → Except GoError Bytes
  | [] => .ok []
  | c0 :: c1 :: c2 :: c3 :: rest =>
    match index c0, index c1 with
    | some v0, some v1 =>
      if c2 = '=' then
        if c3 = '=' ∧ rest = [] then .ok [byte (v0 * 4 + v1 / 16)]
        else .error "illegal base64 data"
      else
        match index c2 with
        | none => .error "illegal base64 data"
        | some v2 =>
          if c3 = '=' then
            if rest = [] then .ok [byte (v0 * 4 + v1 / 16), byte (v1 % 16 * 16 + v2 / 4)]
            else .error "illegal base64 data"
          else
            match index c3 with
            | none => .error "illegal base64 data"
            | some v3 =>
              match decodeQuanta rest with
              | .error err => .error err
              | .ok tail =>
                .ok (byte (v0 * 4 + v1 / 16) :: byte (v1 % 16 * 16 + v2 / 4)
                  :: byte (v2 % 4 * 64 + v3) :: tail)
    | _, _ => .error "illegal base64 data"
  | _ => .error "illegal base64 data"

/-- Stand-in for `base64.URLEncoding.DecodeString`: carriage returns and line
feeds are skipped, the rest is decoded as padded URL-safe base64. -/
def DecodeString (s : String) : Except GoError Bytes :=
  decodeQuanta (s.toList.filter (fun c => c ≠ '\r' ∧ c ≠ '\n'))

/-- Encoding to padded base64, three bytes at a time. -/
def encodeQuanta : Bytes → List Char
  | [] => []
  | [b0] => [digit (b0.val / 4), digit (b0.val % 4 * 16), '=', '=']
  | [b0, b1] =>
    [digit (b0.val / 4), digit (b0.val % 4 * 16 + b1.val / 16), digit (b1.val % 16 * 4), '=']
  | b0 :: b1 :: b2 :: rest =>
    digit (b0.val / 4) :: digit (b0.val % 4 * 16 + b1.val / 16)
      :: digit (b1.val % 16 * 4 + b2.val / 64) :: digit (b2.val % 64) :: encodeQuanta rest

/-- Stand-in for `base64.URLEncoding.EncodeToString`. -/
def EncodeToString (data : Bytes) : String := String.mk (encodeQuanta data)

/-- The bytes of an ASCII string. -/
def ascii (s : String) : Bytes := s.toList.map (fun c => byte c.toNat)

/-- The characters of an ASCII byte sequence. -/
def chars (data : Bytes) : List Char := data.map (fun b => Char.ofNat b.val)

/-- Tokens of the JSON subset read by the stand-in decoder. -/
inductive Tok where
  | lbrace
  | rbrace
  | colon
  | comma
  | str (s : String)
  | num (n : Int)
  | tru
  | fls
  | null
  | bad
deriving DecidableEq, Repr

/-- Where the tokenizer is: between tokens, inside a string, inside a number. -/
inductive Mode where
  | top
  | inStr (acc : List Char)
  | inNum (neg : Bool) (acc : List Char)

/-- The token of a number whose digits were read in reverse into `acc`: a
leading zero is allowed for the single digit `0` only. -/
def numTok (neg : Bool) (acc : List Char) : Tok :=
  match acc.reverse with
  | [] => .bad
  | d :: ds =>
    if d = '0' ∧ ds ≠ [] then .bad
    else
      let n : Nat := (d :: ds).foldl (fun v c => 10 * v + (c.toNat - 48)) 0
      .num (if neg then -(n : Int) else n)

/-- Tokenizer: strings without escapes, integers, `true`, `false`, `null`,
braces, colons and commas, separated by optional white space; anything else
yields `bad`. -/
def lex : Mode → List Char → List Tok
  | .top, [] => []
  | .inStr _, [] => [.bad]
  | .inNum neg acc, [] => [numTok neg acc]
  | .top, c :: cs =>
    if c = ' ' ∨ c = '\n' ∨ c = '\t' ∨ c = '\r' then lex .top cs
    else if c = '{' then .lbrace :: lex .top cs
    else if c = '}' then .rbrace :: lex .top cs
    else if c = ':' then .colon :: lex .top cs
    else if c = ',' then .comma :: lex .top cs
    else if c = '"' then lex (.inStr []) cs
    else if c = '-' then lex (.inNum true []) cs
    else if c.isDigit then lex (.inNum false [c]) cs
    else
      match c, cs with
      | 't', 'r' :: 'u' :: 'e' :: rest => .tru :: lex .top rest
      | 'f', 'a' :: 'l' :: 's' :: 'e' :: rest => .fls :: lex .top rest
      | 'n', 'u' :: 'l' :: 'l' :: rest => .null :: lex .top rest
      | _, _ => [.bad]
  | .inStr acc, c :: cs =>
    if c = '"' then .str (String.mk acc.reverse) :: lex .top cs
    else if c = '\\' ∨ c.toNat < 32 ∨ 128 ≤ c.toNat then [.bad]
    else lex (.inStr (c :: acc)) cs
  | .inNum neg acc, c :: cs =>
    if c.isDigit then lex (.inNum neg (c :: acc)) cs
    else if c = ' ' ∨ c = '\n' ∨ c = '\t' ∨ c = '\r' then numTok neg acc :: lex .top cs
    else if c = '}' then numTok neg acc :: .rbrace :: lex .top cs
    else if c = ',' then numTok neg acc :: .comma :: lex .top cs
    else [.bad]

/-- Decoding of a JSON value into an `interface{}` field: a string, a boolean,
`null`, or a number, which `encoding/json` stores as `float64`; the stand-in
takes the integers a `float64` holds exactly. -/
def anyOf : Tok → Option Any
  | .str s => some (.string s)
  | .tru => some (.bool true)
  | .fls => some (.bool false)
  | .null => some .nil
  | .num n =>
    if -(2 : Int) ^ 53 ≤ n ∧ n ≤ (2 : Int) ^ 53 then some (.float64 (n : Rat)) else none
  | _ => none

/-- Store the value `v` of the object key `k` into the payload: `pk` takes a
string, `ts` an integer within `int64`, `fd` and `pd` a value of `Any`; `null`
leaves `pk` and `ts` as they are; other keys are ignored.  `none` is a type
mismatch. -/
def setField (k : String) (v : Tok) (p : Payload) : Option Payload :=
  match v with
  | .lbrace => none
  | .rbrace => none
  | .colon => none
  | .comma => none
  | .bad => none
  | _ =>
    if k = "pk" then
      match v with
      | .str s => some { p with Passkey := s }
      | .null => some p
      | _ => none
    else if k = "ts" then
      match v with
      | .num n => if -(2 : Int) ^ 63 ≤ n ∧ n < (2 : Int) ^ 63 then some { p with Timestamp := n } else none
      | .null => some p
      | _ => none
    else if k = "fd" then (anyOf v).map (fun a => { p with Fd := a })
    else if k = "pd" then (anyOf v).map (fun a => { p with Pd := a })
    else some p

/-- The members of an object after its first one, up to the closing brace. -/
def afterMember : List Tok → Payload → Option Payload
  | [.rbrace], p => some p
  | .comma :: .str k :: .colon :: v :: rest, p =>
    match setField k v p with
    | none => none
    | some q => afterMember rest q
  | _, _ => none

/-- A flat JSON object, or `null`, decoded into a zero `Payload`. -/
def parseObject : List Tok → Option Payload
  | [.null] => some ⟨"", 0, .nil, .nil⟩
  | [.lbrace, .rbrace] => some ⟨"", 0, .nil, .nil⟩
  | .lbrace :: .str k :: .colon :: v :: rest =>
    match setField k v ⟨"", 0, .nil, .nil⟩ with
    | none => none
    | some q => afterMember rest q
  | _ => none

/-- Stand-in for `json.Unmarshal(plaintext, &payload)`, exact on flat ASCII
objects whose values are strings without escapes, integers, booleans or
`null`, with keys written in lower case; a number for `fd` or `pd` becomes a
`float64`. -/
def Unmarshal (plaintext : Bytes) : Except GoError Payload :=
  match parseObject (lex .top (chars plaintext)) with
  | some p => .ok p
  | none => .error "json: cannot unmarshal"

/-- Whether a string is written between quotes as it stands by `json.Marshal`:
printable ASCII without quote, backslash, `<`, `>` and `&`. -/
def plain (s : String) : Bool :=
  s.toList.all (fun c => 32 ≤ c.toNat ∧ c.toNat < 127 ∧ c ≠ '"' ∧ c ≠ '\\' ∧ c ≠ '<' ∧ c ≠ '>' ∧ c ≠ '&')

/-- The text of an optional field of the payload (`omitempty`): nothing for
the empty interface, the JSON text of a boolean, of a plain string, of an
integer, and of a `float64` that holds an integer exactly; other values are
refused by the stand-in. -/
def member (k : String) (a : Any) : Option String :=
  match a with
  | .nil => some ""
  | .bool b => some (",\"" ++ k ++ "\":" ++ (if b then "true" else "false"))
  | .string s => if plain s then some (",\"" ++ k ++ "\":\"" ++ s ++ "\"") else none
  | .int n => some (",\"" ++ k ++ "\":" ++ toString n)
  | .float64 x =>
    if x.den = 1 ∧ -(2 : Int) ^ 53 ≤ x.num ∧ x.num ≤ (2 : Int) ^ 53 then
      some (",\"" ++ k ++ "\":" ++ toString x.num)
    else none
  | .slice _ => none
  | .map _ => none

/-- Stand-in for `json.Marshal(payload)`, exact on payloads whose strings are
`plain` and whose `interface{}` fields hold nothing, a boolean, a string or a
number the stand-in writes; other payloads are refused. -/
def Marshal (p : Payload) : Except GoError Bytes :=
  match member "fd" p.Fd, member "pd" p.Pd with
  | some fd, some pd =>
    if plain p.Passkey then
      .ok (ascii ("\x7b\"pk\":\"" ++ p.Passkey ++ "\",\"ts\":" ++ toString p.Timestamp ++ fd ++ pd ++ "\x7d"))
    else .error "stand-in: value not handled"
  | _, _ => .error "stand-in: value not handled"

/-- Stand-in for the field `vr.Data.Valid` after decoding a response body: it
recognises bodies of the shape the test server writes,
`code`, `message`, then `data` holding `valid`. -/
def UnmarshalValid (body : Bytes) : Bool :=
  match lex .top (chars body) with
  | [.lbrace, .str "code", .colon, .num _, .comma, .str "message", .colon, .str _, .comma,
      .str "data", .colon, .lbrace, .str "valid", .colon, .tru, .rbrace, .rbrace] => true
  | _ => false

/-- Upper-case hexadecimal digit. -/
def hex (n : Nat) : Char := "0123456789ABCDEF".toList.getD n '0'

/-- Stand-in for `url.QueryEscape` on ASCII strings: letters, digits, `-`,
`_`, `.` and `~` stay, a space becomes `+`, any other character becomes `%XX`. -/
def QueryEscape (s : String) : String :=
  String.mk (s.toList.flatMap (fun c =>
    if c.isAlphanum ∨ c = '-' ∨ c = '_' ∨ c = '.' ∨ c = '~' then [c]
    else if c = ' ' then ['+']
    else ['%', hex (c.toNat / 16 % 16), hex (c.toNat % 16)]))

/-- Stand-in for the error of `http.NewRequest`: a URL with an ASCII control
character is refused. -/
def NewRequestErr (u : String) : Option GoError :=
  if u.toList.any (fun c => c.toNat < 32 ∨ c.toNat = 127) then
    some "net/url: invalid control character in URL"
  else none

/-- The stand-in standard library. -/
def lib : Stdlib :=
  { DecodeString := DecodeString, EncodeToString := EncodeToString, Unmarshal := Unmarshal,
    Marshal := Marshal, UnmarshalValid := UnmarshalValid, QueryEscape := QueryEscape,
    NewRequestErr := NewRequestErr }

/-- The byte all plaintext bytes are shifted by under a nonce. -/
def shift (nonce : Bytes) : Fin 256 := nonce.foldl (fun a b => a + b) 42

/-- The 16-byte tag of a sealed message. -/
def tag (nonce plaintext additionalData : Bytes) : Bytes :=
  List.replicate 16 ((nonce ++ plaintext ++ additionalData).foldl (fun a b => a + b + 1) 7)

/-- Stand-in cipher with the shape of AES-GCM: 12-byte nonce, 16-byte tag
after a ciphertext as long as the plaintext. -/
def aead : cipher.AEAD :=
  { NonceSize := 12
    Seal := fun dst nonce plaintext additionalData =>
      dst ++ plaintext.map (fun b => b + shift nonce) ++ tag nonce plaintext additionalData
    Open := fun dst nonce ciphertext additionalData =>
      if ciphertext.length < 16 then .error "cipher: message authentication failed"
      else
        let plaintext := (ciphertext.take (ciphertext.length - 16)).map (fun b => b - shift nonce)
        if ciphertext.drop (ciphertext.length - 16) = tag nonce plaintext additionalData then
          .ok (dst ++ plaintext)
        else .error "cipher: message authentication failed" }

/-- A cache store holding (set key, member) pairs; expiry is not tracked. -/
def setPool : redis.Pool (List (String × String)) :=
  { SISMEMBER := fun r key member => ((decide ((key, member) ∈ r), none), r)
    SADD := fun r key member => if (key, member) ∈ r then r else (key, member) :: r
    EXPIRE := fun r _ _ => r }

/-- A cache store whose every command fails. -/
def downPool : redis.Pool (List (String × String)) :=
  { SISMEMBER := fun r _ _ => ((false, some "dial tcp: connection refused"), r)
    SADD := fun r _ _ => r
    EXPIRE := fun r _ _ => r }

/-- An authority that gives the same answer to every request and counts the
requests it received. -/
def fixedClient (answer : Option http.Response × Option GoError) : http.Client Nat :=
  { Do := fun s _ => (answer, s + 1) }

/-- The response body `{"code":1000,"message":"Success","data":{"valid":true}}`. -/
def validBody : Bytes :=
  ascii "\x7b\"code\":1000,\"message\":\"Success\",\"data\":\x7b\"valid\":true\x7d\x7d"

/-- The response body `{"code":1000,"message":"Success","data":{"valid":false}}`. -/
def invalidBody : Bytes :=
  ascii "\x7b\"code\":1000,\"message\":\"Success\",\"data\":\x7b\"valid\":false\x7d\x7d"

/-- A configuration as `NewHook` leaves it when only defaults apply. -/
def cfg : Config :=
  { RedisBroker := "", SetKey := "pt:passkeys", HTTPURL := "", HTTPTimeout := 5000000000,
    HTTPAPIKeyHeader := "X-API-Key", HTTPAPIKey := "", CacheTTLSeconds := 0,
    RedisReadTimeout := 0, RedisWriteTimeout := 0, RedisConnectTimeout := 0,
    EncryptionKey := "" }

/-- A twelve-byte nonce. -/
def nonce : Bytes := [1, 2, 3, 4, 5, 6, 7, 8, 9, 10, 11, 12]

/-- A hook over the default configuration with the given optional cipher,
optional pool, authority URL, cache TTL and HTTP client. -/
def hookWith (aesGCM : Option cipher.AEAD) (pool : Option (redis.Pool (List (String × String))))
    (HTTPURL : String) (ttl : Int) (client : http.Client Nat) : hook (List (String × String)) Nat :=
  { cfg := { cfg with HTTPURL := HTTPURL, CacheTTLSeconds := ttl }, pool := pool,
    httpClient := client, aesGCM := aesGCM }

/-- An authority that cannot be reached. -/
def unreachable : http.Client Nat := fixedClient (none, some "dial tcp: connection refused")

/-- `context.Background()`. -/
def background : Context := { RouteParams := none, PasskeyPayload := none }

/-- Query parameters given as a list of pairs, like `mockParams` of the tests. -/
def mockParams (params : List (String × String)) : Params :=
  { String := fun key =>
      match params.lookup key with
      | some v => (v, true)
      | none => ("", false) }

/-- A request with the given query parameters. -/
def request (params : List (String × String)) : AnnounceRequest :=
  { Params := some (mockParams params) }

end sample

end passkeyapproval

/-! ## Query escaping of `net/url`

`url.QueryEscape` and `url.QueryUnescape` belong to the Go standard library;
they are written out here, byte by byte as in `net/url`, to give "the
query-escaped passkey" and "decoding the parameter" a meaning. -/

/-- The conversion `[]byte(s)`: the UTF-8 bytes of a string. -/
def goBytes (s : String) : Bytes :=
  (s.toList.flatMap String.utf8EncodeChar).map (fun b => (b.val : Fin 256))

namespace url

/-- Function `shouldEscape(c, encodeQueryComponent)`: everything but letters,
digits, `-`, `_`, `.` and `~` is escaped. -/
def shouldEscape (c : Fin 256) : Bool :=
  !((97 ≤ c.val ∧ c.val ≤ 122) ∨ (65 ≤ c.val ∧ c.val ≤ 90) ∨ (48 ≤ c.val ∧ c.val ≤ 57)
    ∨ c.val = 45 ∨ c.val = 95 ∨ c.val = 46 ∨ c.val = 126)

/-- The constant `upperhex`. -/
def upperhex : List Char := "0123456789ABCDEF".toList

/-- What `escape(s, encodeQueryComponent)` writes for one byte: `+` for a
space, `%XX` for a byte to escape, the byte itself otherwise. -/
def escapeByte (c : Fin 256) : List Char :=
  if shouldEscape c then
    if c.val = 32 then ['+']
    else ['%', upperhex.getD (c.val / 16) '0', upperhex.getD (c.val % 16) '0']
  else [Char.ofNat c.val]

/-- Function `url.QueryEscape`. -/
def QueryEscape (s : String) : String := String.mk ((goBytes s).flatMap escapeByte)

/-- Function `ishex`. -/
def ishex (c : Fin 256) : Bool :=
  (48 ≤ c.val ∧ c.val ≤ 57) ∨ (97 ≤ c.val ∧ c.val ≤ 102) ∨ (65 ≤ c.val ∧ c.val ≤ 70)

/-- Function `unhex`. -/
def unhex (c : Fin 256) : Nat :=
  if 48 ≤ c.val ∧ c.val ≤ 57 then c.val - 48
  else if 97 ≤ c.val ∧ c.val ≤ 102 then c.val - 97 + 10
  else if 65 ≤ c.val ∧ c.val ≤ 70 then c.val - 65 + 10
  else 0

/-- What `unescape(s, encodeQueryComponent)` computes on the bytes of `s`: `%`
must be followed by two hexadecimal digits and stands for their byte, `+`
stands for a space, any other byte for itself. -/
def unescape : Bytes → Except GoError Bytes
  | [] => .ok []
  | c :: rest =>
    if c.val = 37 then
      match rest with
      | a :: b :: rest =>
        if ishex a ∧ ishex b then
          match unescape rest with
          | .ok t => .ok (⟨(unhex a * 16 + unhex b) % 256, Nat.mod_lt _ (by decide)⟩ :: t)
          | .error e => .error e
        else .error "invalid URL escape"
      | _ => .error "invalid URL escape"
    else
      match unescape rest with
      | .ok t => .ok ((if c.val = 43 then (32 : Fin 256) else c) :: t)
      | .error e => .error e

/-- Function `url.QueryUnescape`; the result is the byte content of the Go
string it returns. -/
def QueryUnescape (s : String) : Except GoError Bytes := unescape (goBytes s)

end url

namespace url

/-- Whether the bytes `e` written for the byte `b` read back as `b`: a single
byte other than `%` that stands for `b`, or `%` and two hexadecimal digits
whose value is `b`. -/
def readsBack (b : Fin 256) (e : Bytes) : Bool :=
  match e with
  | [c] => c.val ≠ 37 ∧ (if c.val = 43 then (32 : Fin 256) else c) = b
  | [p, x, y] => p.val = 37 ∧ ishex x ∧ ishex y ∧ (unhex x * 16 + unhex y) % 256 = b.val
  | _ => false

/-- Whether a character can end or split a query parameter. -/
def delimiter (c : Char) : Bool := c = '&' ∨ c = '=' ∨ c = '?' ∨ c = '#' ∨ c = ';'

end url

/-! ## Construction of the passkey approval hook -/

namespace cipher

/-- The interface `cipher.Block`, as far as `cipher.NewGCM` looks at it. -/
structure Block where
  BlockSize : Nat

end cipher

namespace passkeyapproval

/-- What `url.Parse` returns, as far as `parseRedisURL` reads it; `User` is
`u.User.String()`. -/
structure URL where
  Scheme : String
  Host : String
  Path : String
  User : String
deriving DecidableEq, Repr

/-- Go struct `redisURL`. -/
structure redisURL where
  Host : String
  Password : String
  DB : Int
deriving DecidableEq, Repr

/-- What `NewHook` takes from outside the repository: `url.Parse`,
`strconv.Atoi`, `aes.NewCipher`, `cipher.NewGCM`, the Redis server a pool
dials for a parsed URL and a configuration, and the HTTP client for a
timeout. -/
structure Setup (ρ η : Type) where
  Parse : String → Except GoError URL
  Atoi : String → Except GoError Int
  NewCipher : Bytes → Except GoError cipher.Block
  NewGCM : cipher.Block → Except GoError cipher.AEAD
  Dial : redisURL → Config → redis.Pool ρ
  Client : Int → http.Client η

/-- The pieces of `strings.Split(s, "/")`, on the characters of `s`. -/
def splitSlash : List Char → List (List Char)
  | [] => [[]]
  | c :: cs =>
    if c = '/' then [] :: splitSlash cs
    else
      match splitSlash cs with
      | [] => [[c]]
      | x :: xs => (c :: x) :: xs

/-- The call `strings.Split(s, "/")`. -/
def Split (s : String) : List String := (splitSlash s.toList).map String.mk

/-- Function `parseRedisURL`. -/
def parseRedisURL {ρ η : Type} (env : Setup ρ η) (target : String) : Except GoError redisURL :=
  match env.Parse target with
  | .error err => .error err
  | .ok u =>
    if u.Scheme ≠ "redis" then .error "no redis scheme found"
    else
      let parts := Split u.Path
      if parts.length > 1 ∧ parts.getD 1 "" ≠ "" then
        match env.Atoi (parts.getD 1 "") with
        | .error err => .error err
        | .ok db => .ok ⟨u.Host, u.User, db⟩
      else .ok ⟨u.Host, u.User, 0⟩

/-- Lines 85-93 of `NewHook`: the defaults of the configuration. -/
def withDefaults (cfg : Config) : Config :=
  let cfg := if cfg.SetKey = "" then { cfg with SetKey := "pt:passkeys" } else cfg
  let cfg := if cfg.HTTPTimeout ≤ 0 then { cfg with HTTPTimeout := 5000000000 } else cfg
  if cfg.HTTPAPIKeyHeader = "" then { cfg with HTTPAPIKeyHeader := "X-API-Key" } else cfg

/-- Lines 95-108 of `NewHook`: the cipher for the configured key, nil for an
empty key; `len(cfg.EncryptionKey)` counts bytes. -/
def newAEAD {ρ η : Type} (env : Setup ρ η) (cfg : Config) : Except GoError (Option cipher.AEAD) :=
  if cfg.EncryptionKey ≠ "" then
    if (goBytes cfg.EncryptionKey).length ≠ 32 then .error "encryption_key must be 32 bytes"
    else
      match env.NewCipher (goBytes cfg.EncryptionKey) with
      | .error err => .error err
      | .ok block =>
        match env.NewGCM block with
        | .error err => .error err
        | .ok aead => .ok (some aead)
  else .ok none

/-- Lines 110-139 of `NewHook`: the pool for the configured broker, nil for an
empty connection string. -/
def newPool {ρ η : Type} (env : Setup ρ η) (cfg : Config) :
    Except GoError (Option (redis.Pool ρ)) :=
  if cfg.RedisBroker ≠ "" then
    match parseRedisURL env cfg.RedisBroker with
    | .error err => .error err
    | .ok ru => .ok (some (env.Dial ru cfg))
  else .ok none

/-- Function `NewHook`. -/
def NewHook {ρ η : Type} (env : Setup ρ η) (cfg : Config) : Except GoError (hook ρ η) :=
  let cfg := withDefaults cfg
  match newAEAD env cfg with
  | .error err => .error err
  | .ok aead =>
    match newPool env cfg with
    | .error err => .error err
    | .ok p => .ok { cfg := cfg, pool := p, httpClient := env.Client cfg.HTTPTimeout, aesGCM := aead }

namespace sample

/-- The text before the first `/`, and the rest from that `/` on. -/
def uptoSlash : List Char → List Char × List Char
  | [] => ([], [])
  | c :: cs => if c = '/' then ([], c :: cs) else ((c :: (uptoSlash cs).1), (uptoSlash cs).2)

/-- Stand-in for `url.Parse` on connection strings `redis://host/db`. -/
def Parse (target : String) : Except GoError URL :=
  match target.toList with
  | 'r' :: 'e' :: 'd' :: 'i' :: 's' :: ':' :: '/' :: '/' :: rest =>
    .ok ⟨"redis", String.mk (uptoSlash rest).1, String.mk (uptoSlash rest).2, ""⟩
  | _ => .ok ⟨"", "", target, ""⟩

/-- Stand-in for `strconv.Atoi` on unsigned decimal numbers. -/
def Atoi (s : String) : Except GoError Int :=
  if s.toList ≠ [] ∧ s.toList.all Char.isDigit then
    .ok (s.toList.foldl (fun v c => 10 * v + (c.toNat - 48)) 0 : Nat)
  else .error "strconv.Atoi: invalid syntax"

/-- Stand-in for the construction of the cipher and of the outside services:
`NewCipher` accepts keys of 16, 24 and 32 bytes, `NewGCM` accepts blocks of 16
bytes and yields the stand-in cipher, every broker is the set-backed store and
the authority cannot be reached. -/
def setup : Setup (List (String × String)) Nat :=
  { Parse := Parse
    Atoi := Atoi
    NewCipher := fun key =>
      if key.length = 16 ∨ key.length = 24 ∨ key.length = 32 then .ok ⟨16⟩
      else .error "crypto/aes: invalid key size"
    NewGCM := fun block =>
      if block.BlockSize = 16 then .ok aead
      else .error "cipher: NewGCM requires 128-bit block cipher"
    Dial := fun _ _ => setPool
    Client := fun _ => unreachable }

/-- What `NewHook` returned, in a word: an error, a hook in plaintext mode or a
hook in encryption mode. -/
def modeOf {ρ η : Type} (res : Except GoError (hook ρ η)) : String :=
  match res with
  | .error _ => "error"
  | .ok h => if h.aesGCM.isSome then "encryption" else "plaintext"

end sample

end passkeyapproval

/-! ## Durations in seconds

`time.Duration.Seconds` computes in `float64`.  A finite `float64` is given by
the rational number it denotes; every value that occurs for a duration lies in
the normal range, where rounding keeps 53 significant bits. -/

namespace float64

/-- The power of two with exponent `e`, as a rational. -/
def pow2 (e : Int) : Rat :=
  if 0 ≤ e then (2 : Rat) ^ e.toNat else 1 / (2 : Rat) ^ (-e).toNat

/-- The position of the leading bit of `n`, found in at most `fuel` halvings. -/
def leadingBit (fuel n : Nat) : Nat :=
  match fuel with
  | 0 => 0
  | fuel + 1 => if n < 2 then 0 else leadingBit fuel (n / 2) + 1

/-- The exponent `e` with `2^e ≤ q < 2^(e+1)`, for a positive rational `q`. -/
def exponent (q : Rat) : Int :=
  let k : Int := (leadingBit q.num.toNat q.num.toNat : Int) - (leadingBit q.den q.den : Int)
  if pow2 k ≤ q then k else k - 1

/-- Rounding of a positive rational to 53 significant bits: to nearest, ties
to the even significand. -/
def roundPos (q : Rat) : Rat :=
  let e := exponent q - 52
  let m := q / pow2 e
  let f : Int := Rat.floor m
  let r := m - (f : Rat)
  let n : Int :=
    if r < 1 / 2 then f
    else if 1 / 2 < r then f + 1
    else if f % 2 = 0 then f else f + 1
  (n : Rat) * pow2 e

/-- The `float64` nearest to a rational: the result of a conversion from an
integer or of one arithmetic operation whose exact value is `q`. -/
def round (q : Rat) : Rat :=
  if q = 0 then 0 else if q < 0 then -(roundPos (-q)) else roundPos q

/-- Go conversion `int(f)` of a `float64` within the range of `int`: the
fraction is discarded. -/
def toInt (f : Rat) : Int := Int.tdiv f.num (f.den : Int)

end float64

namespace time

/-- Method `Duration.Seconds` of package `time`, on a duration in nanoseconds:
`sec := d / Second; nsec := d % Second; float64(sec) + float64(nsec)/1e9`. -/
def Duration.Seconds (d : Int) : Rat :=
  let sec := Int.tdiv d 1000000000
  let nsec := Int.tmod d 1000000000
  float64.round
    (float64.round (sec : Rat) + float64.round (float64.round (nsec : Rat) / 1000000000))

end time

/-! ## Peer limit

A shallow embedding of `middleware/peerlimit/peerlimit.go`. -/

namespace peerlimit

open bittorrent

/-- Go struct `Config` of the peer limit hook; durations are in nanoseconds. -/
structure Config where
  RedisBroker : String
  LimitKeyPrefix : String
  PeerLifetime : Int
  RedisReadTimeout : Int
  RedisWriteTimeout : Int
  RedisConnectTimeout : Int

/-- The commands the hook sends. -/
inductive Command where
  | SREM (key member : String)
  | SMEMBERS (key : String)
  | MULTI
  | SADD (key member : String)
  | EXPIRE (key : String) (seconds : Int)
  | EXEC
deriving DecidableEq, Repr

/-- A `*redis.Pool` seen from the hook, over a store state `ρ`.

* `SREM` is `conn.Do("SREM", key, member)`: its error and the store afterwards.
* `SMEMBERS` is `redis.Strings(conn.Do("SMEMBERS", key))` with its Go result
  pair `([]string, error)`.
* `EXEC` is the transaction `MULTI`, `SADD key member`, `EXPIRE key seconds`,
  `EXEC`: the error of `conn.Do("EXEC")` and the store afterwards. -/
structure Pool (ρ : Type) where
  SREM : ρ → String → String → Option GoError × ρ
  SMEMBERS : ρ → String → (List String × Option GoError) × ρ
  EXEC : ρ → String → String → Int → Option GoError × ρ

/-- Go struct `hook` of the peer limit hook; `pool` may be nil. -/
structure hook (ρ : Type) where
  cfg : Config
  pool : Option (Pool ρ)

/-- The result of `HandleAnnounce`: the returned context and error (`none` is
`nil`), the commands sent, and the state of the store afterwards. -/
structure Result (ρ : Type) where
  ctx : passkeyapproval.Context
  err : Option ClientError
  trace : List Command
  store : ρ

/-- Lines 122-136 of `HandleAnnounce`: the passkey from the payload in the
context, else from the route, else from the query. -/
def passkeyOf (ctx : passkeyapproval.Context) (req : AnnounceRequest) : String :=
  let passkey :=
    match ctx.PasskeyPayload with
    | some payload => if payload.Passkey ≠ "" then payload.Passkey else ""
    | none => ""
  let passkey := if passkey = "" then passkeyapproval.routeParam ctx "passkey" else passkey
  if passkey = "" then passkeyapproval.paramOr req "passkey" passkey else passkey

/-- The key of line 147, `fmt.Sprintf("%s:%s:%s", prefix, passkey, ih)`. -/
def limitKey (cfg : Config) (passkey ih : String) : String :=
  cfg.LimitKeyPrefix ++ ":" ++ passkey ++ ":" ++ ih

/-- The loop of lines 168-178: the first member that is not `peerID`. -/
def existingPeer (members : List String) (peerID : String) : Option String :=
  match members with
  | [] => none
  | member :: rest => if member ≠ peerID then some member else existingPeer rest peerID

/-- The expression `int(h.cfg.PeerLifetime.Seconds())` of line 183: the
lifetime in seconds as a `float64`, its fraction discarded. -/
def lifetimeSeconds (cfg : Config) : Int :=
  float64.toInt (time.Duration.Seconds cfg.PeerLifetime)

/-- Method `(h *hook) HandleAnnounce` of the peer limit hook, run against a
store in state `r`. -/
def hook.HandleAnnounce {ρ : Type} (h : hook ρ) (ctx : passkeyapproval.Context)
    (req : AnnounceRequest) (r : ρ) : Result ρ :=
  match h.pool with
  | none => ⟨ctx, none, [], r⟩
  | some pool =>
    let passkey := passkeyOf ctx req
    if passkey = "" then ⟨ctx, none, [], r⟩
    else
      let ih := req.InfoHash
      let peerID := req.Peer.ID
      let key := limitKey h.cfg passkey ih
      if req.Event = Event.Stopped then
        ⟨ctx, none, [.SREM key peerID], (pool.SREM r key peerID).2⟩
      else
        match pool.SMEMBERS r key with
        | ((_, some _), r) => ⟨ctx, none, [.SMEMBERS key], r⟩
        | ((members, none), r) =>
          match existingPeer members peerID with
          | some _ =>
            ⟨ctx, some "connection limit reached for this torrent", [.SMEMBERS key], r⟩
          | none =>
            ⟨ctx, none,
              [.SMEMBERS key, .MULTI, .SADD key peerID, .EXPIRE key (lifetimeSeconds h.cfg),
                .EXEC],
              (pool.EXEC r key peerID (lifetimeSeconds h.cfg)).2⟩

/-- How the Redis commands of one announce turn out: for each write whether the
server applied it and which error, if any, the client saw; for the read the
error, if any. -/
structure Outcome where
  sremApplied : Bool
  sremErr : Option GoError
  smembersErr : Option GoError
  execApplied : Bool
  execErr : Option GoError
deriving DecidableEq, Repr

/-- The limit sets as explicit state: the members stored under each key.
`SREM` removes the member, `SMEMBERS` returns the members of the key, the
transaction adds the member; a command that is not applied leaves the sets as
they are.  Expiry is not tracked. -/
def limitStore (o : Outcome) : Pool (String → List String) :=
  { SREM := fun r key member =>
      (o.sremErr,
        if o.sremApplied then
          fun k => if k = key then (r key).filter (fun m => m ≠ member) else r k
        else r)
    SMEMBERS := fun r key =>
      match o.smembersErr with
      | some err => (([], some err), r)
      | none => ((r key, none), r)
    EXEC := fun r key member _ =>
      (o.execErr,
        if o.execApplied then
          fun k => if k = key then (if member ∈ r key then r key else member :: r key) else r k
        else r) }

/-- A set holds at most one peer ID. -/
def atMostOne (members : List String) : Prop := ∀ a ∈ members, ∀ b ∈ members, a = b

namespace sample

/-- A hook with the default key prefix and a lifetime of thirty minutes over
the explicit limit sets. -/
def hookFor (o : Outcome) : hook (String → List String) :=
  { cfg := ⟨"redis://cache", "tracker:limit", 1800000000000, 0, 0, 0⟩
    pool := some (limitStore o) }

/-- An announce of the torrent `ih` by the given peer with the passkey `pk` in
the query. -/
def announce (event : Event) (peerID : String) : AnnounceRequest :=
  { Params := some (passkeyapproval.sample.mockParams [("passkey", "pk")])
    Event := event
    InfoHash := "ih"
    Peer := { ID := peerID } }

/-- Limit sets in which peer `A` holds the set of passkey `pk` and torrent `ih`. -/
def held : String → List String :=
  fun key => if key = "tracker:limit:pk:ih" then ["A"] else []

/-- All commands succeed. -/
def allFine : Outcome := ⟨true, none, none, true, none⟩

/-- The fetch of the members fails. -/
def fetchFails : Outcome := ⟨true, none, some "i/o timeout", true, none⟩

end sample

end peerlimit

/-! ## Traffic push

The delta computation of `middleware/trafficpush/trafficpush.go`. -/

namespace trafficpush

open bittorrent

/-- Go's `a - b` on `uint64`: the difference modulo 2^64. -/
def sub64 (a b : Nat) : Nat := (a + 2 ^ 64 - b) % 2 ^ 64

/-- The variables `lastUp`, `lastDown` and `lastTs` after line 186: what
`redis.Scan` stored from the reply of `HMGET`, zero where nothing was stored. -/
structure Last where
  lastUp : Nat
  lastDown : Nat
  lastTs : Int
deriving DecidableEq, Repr

/-- Lines 191-195 and 196-200 of `HandleAnnounce`: the delta of a counter
against its last value. -/
def delta (current last : Nat) : Nat :=
  if current ≥ last then sub64 current last else current

/-- The variables `du` and `dd` of `HandleAnnounce` after line 200. -/
def deltas (req : AnnounceRequest) (last : Last) : Nat × Nat :=
  (delta req.Uploaded last.lastUp, delta req.Downloaded last.lastDown)

/-- The fields `du` and `dd` of the `XADD` of lines 211-255; `none` when line
208 returns without pushing. -/
def pushed (req : AnnounceRequest) (last : Last) : Option (Nat × Nat) :=
  let du := (deltas req last).1
  let dd := (deltas req last).2
  if du = 0 ∧ dd = 0 ∧ req.Event = Event.None then none else some (du, dd)

end trafficpush

/-! ## Theorems -/

namespace passkeyapproval

open bittorrent

/-- The three client errors are pairwise different. -/
theorem errors_distinct :
    ErrInvalidPasskey ≠ ErrMissingPasskey ∧ ErrInvalidPasskey ≠ ErrUnapprovedPasskey
      ∧ ErrMissingPasskey ≠ ErrUnapprovedPasskey := by decide

/-- The lookup of a query parameter into an empty variable is its value. -/
theorem paramOr_empty (req : AnnounceRequest) (name : String) :
    paramOr req name "" = queryParam req name := by
  unfold paramOr queryParam
  rfl

/-- In encryption mode the extracted credential is the first non-empty probe,
and empty when there is none. -/
theorem credentialOf_eq (ctx : Context) (req : AnnounceRequest) :
    credentialOf ctx req = (firstNonEmpty (probes ctx req)).getD "" := by
  unfold credentialOf firstNonEmpty probes
  by_cases h1 : routeParam ctx "credential" = ""
  · by_cases h2 : queryParam req "credential" = ""
    · by_cases h3 : routeParam ctx "passkey" = ""
      · by_cases h4 : queryParam req "passkey" = ""
        · simp [h1, h2, h3, h4, paramOr_empty, List.find?]
        · simp [h1, h2, h3, h4, paramOr_empty, List.find?]
      · simp [h1, h2, h3, paramOr_empty, List.find?]
    · simp [h1, h2, paramOr_empty, List.find?]
  · simp [h1, List.find?]

/-- The first non-empty probe is not empty. -/
theorem firstNonEmpty_ne {l : List String} {c : String} (h : firstNonEmpty l = some c) :
    c ≠ "" := by
  unfold firstNonEmpty at h
  have := List.find?_some h
  simpa using this

/-- The `decrypt` calls of a concatenated trace. -/
theorem decrypted_append (a b : List Event) : decrypted (a ++ b) = decrypted a ++ decrypted b := by
  induction a with
  | nil => rfl
  | cons e t ih => cases e <;> simp [decrypted, ih]

/-- The authority requests of a concatenated trace. -/
theorem requests_append (a b : List Event) : requests (a ++ b) = requests a ++ requests b := by
  induction a with
  | nil => rfl
  | cons e t ih => cases e <;> simp [requests, ih]

/-- The cache commands of a concatenated trace. -/
theorem commands_append (a b : List Event) : commands (a ++ b) = commands a ++ commands b := by
  induction a with
  | nil => rfl
  | cons e t ih => cases e <;> simp [commands, ih]

/-- The cache lookup calls neither `decrypt` nor the authority. -/
theorem lookup_events {ρ η : Type} (h : hook ρ η) (passkey : String) (r : ρ) :
    decrypted (lookup h passkey r).events = [] ∧ requests (lookup h passkey r).events = [] := by
  unfold lookup
  cases h.pool <;> simp [decrypted, requests]

/-- The write-back calls neither `decrypt` nor the authority. -/
theorem remember_events {ρ η : Type} (h : hook ρ η) (passkey : String) (r : ρ) :
    decrypted (remember h passkey r).1 = [] ∧ requests (remember h passkey r).1 = [] := by
  unfold remember
  cases h.pool with
  | none => simp [decrypted, requests]
  | some pool => by_cases ht : h.cfg.CacheTTLSeconds > 0 <;> simp [ht, decrypted, requests]

/-- The exchange with the authority calls neither `decrypt` nor the cache. -/
theorem consult_events {ρ η : Type} (lib : Stdlib) (h : hook ρ η) (passkey : String) (s : η) :
    decrypted (consult lib h passkey s).events = []
      ∧ commands (consult lib h passkey s).events = [] := by
  unfold consult
  by_cases hu : h.cfg.HTTPURL = ""
  · simp [hu, decrypted, commands]
  · simp only [ne_eq, hu, not_false_eq_true, if_true]
    cases lib.NewRequestErr (authorityURL lib h.cfg.HTTPURL passkey) with
    | some e => simp [decrypted, commands]
    | none =>
      rcases h.httpClient.Do s (authorityRequest h.cfg (authorityURL lib h.cfg.HTTPURL passkey))
        with ⟨⟨resp, err⟩, s1⟩
      cases err <;> cases resp <;> simp [decrypted, commands]

/-- The cache and authority stages call `decrypt` no more. -/
theorem checkPasskey_decrypted {ρ η : Type} (lib : Stdlib) (h : hook ρ η) (ctx : Context)
    (passkey : String) (trace : List Event) (r : ρ) (s : η) :
    decrypted (checkPasskey lib h ctx passkey trace r s).trace = decrypted trace := by
  unfold checkPasskey
  simp only []
  split_ifs <;>
    simp [decrypted_append, (lookup_events h passkey r).1, (consult_events lib h passkey s).1,
      (remember_events h passkey _).1]

/-- C1. In encryption mode, when a credential was extracted and `decrypt`
returns an error on it, `HandleAnnounce` returns the unchanged context with
`ErrInvalidPasskey`, which is neither `ErrMissingPasskey` nor
`ErrUnapprovedPasskey`; its only call is that `decrypt`, so there is no cache
lookup and no authority request, and both external states are untouched. -/
theorem malformed_credential_is_invalid {ρ η : Type} (lib : Stdlib) (h : hook ρ η)
    (a : cipher.AEAD) (ctx : Context) (req : AnnounceRequest) (r : ρ) (s : η) (e : GoError)
    (hkey : h.aesGCM = some a) (hcred : credentialOf ctx req ≠ "")
    (herr : h.decrypt lib (credentialOf ctx req) = .error e) :
    h.HandleAnnounce lib ctx req r s
        = ⟨ctx, .error ErrInvalidPasskey, [.decrypt (credentialOf ctx req)], r, s⟩
      ∧ ErrInvalidPasskey ≠ ErrMissingPasskey ∧ ErrInvalidPasskey ≠ ErrUnapprovedPasskey
      ∧ commands (h.HandleAnnounce lib ctx req r s).trace = []
      ∧ requests (h.HandleAnnounce lib ctx req r s).trace = [] := by
  have hrun : h.HandleAnnounce lib ctx req r s
      = ⟨ctx, .error ErrInvalidPasskey, [.decrypt (credentialOf ctx req)], r, s⟩ := by
    unfold hook.HandleAnnounce resolve
    simp [hkey, hcred, herr]
  refine ⟨hrun, errors_distinct.1, errors_distinct.2.1, ?_, ?_⟩
  · rw [hrun]; rfl
  · rw [hrun]; rfl

/-- C1 at a concrete request: the credential `garbage` under the stand-in
cipher, as in case 2 of `TestHandleAnnounce_Encryption`. -/
theorem malformed_credential_is_invalid_witness :
    (sample.hookWith (some sample.aead) (some sample.setPool) "http://authority/check" 60
        sample.unreachable).HandleAnnounce sample.lib sample.background
        (sample.request [("credential", "garbage")]) [] 0
      = ⟨sample.background, .error ErrInvalidPasskey, [.decrypt "garbage"], [], 0⟩ :=
  (malformed_credential_is_invalid sample.lib
    (sample.hookWith (some sample.aead) (some sample.setPool) "http://authority/check" 60
      sample.unreachable)
    sample.aead sample.background (sample.request [("credential", "garbage")]) [] 0
    "illegal base64 data" rfl (by decide!) (by decide!)).1

/-- C2. Whatever the configuration, when the route parameters and the query
parameters "credential" and "passkey" are all absent or empty,
`HandleAnnounce` returns the unchanged context with `ErrMissingPasskey` and an
empty trace: no decryption, no cache lookup, no authority request. -/
theorem no_credential_is_missing {ρ η : Type} (lib : Stdlib) (h : hook ρ η)
    (ctx : Context) (req : AnnounceRequest) (r : ρ) (s : η)
    (h1 : routeParam ctx "credential" = "") (h2 : queryParam req "credential" = "")
    (h3 : routeParam ctx "passkey" = "") (h4 : queryParam req "passkey" = "") :
    h.HandleAnnounce lib ctx req r s = ⟨ctx, .error ErrMissingPasskey, [], r, s⟩ := by
  have hc : credentialOf ctx req = "" := by
    rw [credentialOf_eq]
    simp [firstNonEmpty, probes, h1, h2, h3, h4, List.find?]
  have hp : passkeyOf ctx req = "" := by
    unfold passkeyOf
    simp [h3, paramOr_empty, h4]
  unfold hook.HandleAnnounce resolve
  cases hk : h.aesGCM with
  | none => simp [hp]
  | some a => simp [hc]

/-- C2 at a concrete request: nil `Params` and a context without route
parameters, in encryption mode with cache and authority configured. -/
theorem no_credential_is_missing_witness :
    (sample.hookWith (some sample.aead) (some sample.setPool) "http://authority/check" 60
        sample.unreachable).HandleAnnounce sample.lib sample.background
        { Params := none } [] 0
      = ⟨sample.background, .error ErrMissingPasskey, [], [], 0⟩ :=
  no_credential_is_missing sample.lib
    (sample.hookWith (some sample.aead) (some sample.setPool) "http://authority/check" 60
      sample.unreachable)
    sample.background { Params := none } [] 0 rfl rfl rfl rfl

/-- C3. In encryption mode the strings handed to `decrypt` during
`HandleAnnounce` are exactly the first non-empty probe among route
"credential", query "credential", route "passkey", query "passkey" (empty
probes are skipped); when all four are empty `decrypt` is not called. -/
theorem decrypt_gets_first_nonempty_probe {ρ η : Type} (lib : Stdlib) (h : hook ρ η)
    (a : cipher.AEAD) (ctx : Context) (req : AnnounceRequest) (r : ρ) (s : η)
    (hkey : h.aesGCM = some a) :
    decrypted (h.HandleAnnounce lib ctx req r s).trace
      = (firstNonEmpty (probes ctx req)).toList := by
  unfold hook.HandleAnnounce resolve
  simp only [hkey]
  cases hf : firstNonEmpty (probes ctx req) with
  | none =>
    have hc : credentialOf ctx req = "" := by rw [credentialOf_eq, hf]; rfl
    simp [hc, decrypted]
  | some c =>
    have hc : credentialOf ctx req = c := by rw [credentialOf_eq, hf]; rfl
    have hne : c ≠ "" := firstNonEmpty_ne hf
    simp only [hc, hne, if_false]
    cases hd : h.decrypt lib c with
    | ok payload => simp [checkPasskey_decrypted, decrypted]
    | error err => simp [decrypted]
    | panic => simp [decrypted]

/-- C3 at a concrete request: an empty route "credential" is skipped, the
query "credential" wins over both "passkey" parameters. -/
theorem decrypt_gets_first_nonempty_probe_witness :
    decrypted ((sample.hookWith (some sample.aead) none "" 0 sample.unreachable).HandleAnnounce
        sample.lib
        { RouteParams := some ⟨fun name => if name = "passkey" then "fromroute" else ""⟩,
          PasskeyPayload := none }
        (sample.request [("passkey", "legacy"), ("credential", "garbage")]) [] 0).trace
      = ["garbage"] :=
  decrypt_gets_first_nonempty_probe sample.lib
    (sample.hookWith (some sample.aead) none "" 0 sample.unreachable) sample.aead
    { RouteParams := some ⟨fun name => if name = "passkey" then "fromroute" else ""⟩,
      PasskeyPayload := none }
    (sample.request [("passkey", "legacy"), ("credential", "garbage")]) [] 0 rfl

/-- With encryption disabled the passkey read is the first non-empty probe
among route "passkey" and query "passkey", and empty when there is none. -/
theorem passkeyOf_eq (ctx : Context) (req : AnnounceRequest) :
    passkeyOf ctx req
      = (firstNonEmpty [routeParam ctx "passkey", queryParam req "passkey"]).getD "" := by
  unfold passkeyOf firstNonEmpty
  by_cases h3 : routeParam ctx "passkey" = ""
  · by_cases h4 : queryParam req "passkey" = ""
    · simp [h3, h4, paramOr_empty, List.find?]
    · simp [h3, h4, paramOr_empty, List.find?]
  · simp [h3, List.find?]

/-- A non-empty "credential" parameter is the first non-empty probe of all four. -/
theorem firstNonEmpty_credential (ctx : Context) (req : AnnounceRequest) (c : String)
    (hc : firstNonEmpty [routeParam ctx "credential", queryParam req "credential"] = some c) :
    firstNonEmpty (probes ctx req) = some c := by
  unfold firstNonEmpty probes at *
  by_cases h1 : routeParam ctx "credential" = ""
  · by_cases h2 : queryParam req "credential" = ""
    · simp [h1, h2, List.find?] at hc
    · simpa [h1, h2, List.find?] using hc
  · simpa [h1, List.find?] using hc

/-- C4, counterexample. A hook without encryption key receives both
"credential" = `CRED` and "passkey" = `PASS`: it uses `PASS`, which is what it
looks up in the cache, and not the value of "credential". -/
theorem credential_priority_fails_without_key :
    firstNonEmpty [routeParam sample.background "credential",
        queryParam (sample.request [("credential", "CRED"), ("passkey", "PASS")]) "credential"]
      = some "CRED"
    ∧ firstNonEmpty [routeParam sample.background "passkey",
        queryParam (sample.request [("credential", "CRED"), ("passkey", "PASS")]) "passkey"]
      = some "PASS"
    ∧ usedCredential sample.lib (sample.hookWith none (some sample.setPool) "" 0 sample.unreachable)
        sample.background (sample.request [("credential", "CRED"), ("passkey", "PASS")])
      = some "PASS"
    ∧ ((sample.hookWith none (some sample.setPool) "" 0 sample.unreachable).HandleAnnounce
        sample.lib sample.background
        (sample.request [("credential", "CRED"), ("passkey", "PASS")]) [] 0).trace
      = [.redis (.SISMEMBER "pt:passkeys" "PASS")] := by
  decide!

/-- C4, amended. When both a "credential" parameter and a "passkey" parameter
are non-empty, a hook with an encryption key hands the value of "credential"
to `decrypt`, and a hook without one uses the value of "passkey" verbatim. -/
theorem used_credential_by_mode {ρ η : Type} (lib : Stdlib) (h : hook ρ η) (ctx : Context)
    (req : AnnounceRequest) (c p : String)
    (hc : firstNonEmpty [routeParam ctx "credential", queryParam req "credential"] = some c)
    (hp : firstNonEmpty [routeParam ctx "passkey", queryParam req "passkey"] = some p) :
    usedCredential lib h ctx req = some (if h.aesGCM.isSome then c else p) := by
  unfold usedCredential resolve
  cases hk : h.aesGCM with
  | none =>
    have hpk : passkeyOf ctx req = p := by rw [passkeyOf_eq, hp]; rfl
    have hne : p ≠ "" := firstNonEmpty_ne hp
    simp [hpk, hne]
  | some a =>
    have hcr : credentialOf ctx req = c := by
      rw [credentialOf_eq, firstNonEmpty_credential ctx req c hc]; rfl
    have hne : c ≠ "" := firstNonEmpty_ne hc
    simp only [hcr, hne, if_false]
    cases h.decrypt lib c <;> simp

/-- C4, amended, at concrete requests: the same request with and without an
encryption key. -/
theorem used_credential_by_mode_witness :
    usedCredential sample.lib (sample.hookWith (some sample.aead) none "" 0 sample.unreachable)
        sample.background (sample.request [("credential", "CRED"), ("passkey", "PASS")])
      = some "CRED" :=
  used_credential_by_mode sample.lib
    (sample.hookWith (some sample.aead) none "" 0 sample.unreachable) sample.background
    (sample.request [("credential", "CRED"), ("passkey", "PASS")]) "CRED" "PASS"
    (by decide!) (by decide!)

/-- What `decrypt` computes once the credential decodes to `data`, at least a
nonce long: both slices are in range and the result is that of opening and
parsing. -/
theorem decrypt_of_decoded {ρ η : Type} (lib : Stdlib) (h : hook ρ η) (a : cipher.AEAD)
    (c : String) (data : Bytes) (hkey : h.aesGCM = some a)
    (hdec : lib.DecodeString c = .ok data) (hlen : a.NonceSize ≤ data.length) :
    h.decrypt lib c =
      match a.Open [] (data.take a.NonceSize) (data.drop a.NonceSize) [] with
      | .error err => .error err
      | .ok plaintext =>
        match lib.Unmarshal plaintext with
        | .error err => .error err
        | .ok payload => .ok payload := by
  unfold hook.decrypt
  simp [hkey, hdec, sliceTo, sliceFrom, hlen, Nat.not_lt.mpr hlen]

/-- C5, counterexample. The credential below is the stand-in encryption of the
plaintext `{}`: `decrypt` succeeds on it with an empty `Passkey`, and
`HandleAnnounce` goes on to look the empty passkey up in the cache and to ask
the authority about it. -/
theorem decrypt_success_with_empty_passkey :
    sample.lib.EncodeToString (sample.aead.Seal sample.nonce sample.nonce (sample.ascii "\x7b\x7d") [])
      = "AQIDBAUGBwgJCgsM8_VbW1tbW1tbW1tbW1tbW1tb"
    ∧ (sample.hookWith (some sample.aead) (some sample.setPool) "http://authority/check" 60
        sample.unreachable).decrypt sample.lib "AQIDBAUGBwgJCgsM8_VbW1tbW1tbW1tbW1tbW1tb"
      = .ok ⟨"", 0, .nil, .nil⟩
    ∧ ((sample.hookWith (some sample.aead) (some sample.setPool) "http://authority/check" 60
        sample.unreachable).HandleAnnounce sample.lib sample.background
        (sample.request [("credential", "AQIDBAUGBwgJCgsM8_VbW1tbW1tbW1tbW1tbW1tb")]) [] 0).trace
      = [.decrypt "AQIDBAUGBwgJCgsM8_VbW1tbW1tbW1tbW1tbW1tb",
          .redis (.SISMEMBER "pt:passkeys" ""),
          .http ⟨"GET", "http://authority/check?passkey=", []⟩] := by
  decide!

/-- C5, amended. When `decrypt` succeeds, the payload it returns is the one
parsed from the opened plaintext, with whatever `Passkey` that plaintext
carries, empty or not; `HandleAnnounce` attaches it to the context and passes
its `Passkey` unchecked to the cache and authority stage. -/
theorem decrypt_success_passes_parsed_passkey {ρ η : Type} (lib : Stdlib) (h : hook ρ η)
    (a : cipher.AEAD) (ctx : Context) (req : AnnounceRequest) (r : ρ) (s : η)
    (payload : Payload) (hkey : h.aesGCM = some a) (hcred : credentialOf ctx req ≠ "")
    (hok : h.decrypt lib (credentialOf ctx req) = .ok payload) :
    (∃ data plaintext, lib.DecodeString (credentialOf ctx req) = .ok data
        ∧ a.NonceSize ≤ data.length
        ∧ a.Open [] (data.take a.NonceSize) (data.drop a.NonceSize) [] = .ok plaintext
        ∧ lib.Unmarshal plaintext = .ok payload)
      ∧ h.HandleAnnounce lib ctx req r s
        = checkPasskey lib h (ctx.WithPayload payload) payload.Passkey
            [.decrypt (credentialOf ctx req)] r s := by
  constructor
  · cases hd : lib.DecodeString (credentialOf ctx req) with
    | error e => simp [hook.decrypt, hkey, hd] at hok
    | ok data =>
      by_cases hlen : data.length < a.NonceSize
      · simp [hook.decrypt, hkey, hd, hlen] at hok
      · have hle : a.NonceSize ≤ data.length := Nat.le_of_not_lt hlen
        rw [decrypt_of_decoded lib h a _ data hkey hd hle] at hok
        cases ho : a.Open [] (data.take a.NonceSize) (data.drop a.NonceSize) [] with
        | error e => simp [ho] at hok
        | ok plaintext =>
          cases hj : lib.Unmarshal plaintext with
          | error e => simp [ho, hj] at hok
          | ok q =>
            simp [ho, hj] at hok
            exact ⟨data, plaintext, rfl, hle, ho, by rw [hj, hok]⟩
  · unfold hook.HandleAnnounce resolve
    simp [hkey, hcred, hok]

/-- C5, amended, at a concrete request: the stand-in encryption of `{}`. -/
theorem decrypt_success_passes_parsed_passkey_witness :
    (sample.hookWith (some sample.aead) none "" 0 sample.unreachable).HandleAnnounce sample.lib
        sample.background
        (sample.request [("credential", "AQIDBAUGBwgJCgsM8_VbW1tbW1tbW1tbW1tbW1tb")]) [] 0
      = checkPasskey sample.lib (sample.hookWith (some sample.aead) none "" 0 sample.unreachable)
          (sample.background.WithPayload ⟨"", 0, .nil, .nil⟩) ""
          [.decrypt "AQIDBAUGBwgJCgsM8_VbW1tbW1tbW1tbW1tbW1tb"] [] 0 :=
  (decrypt_success_passes_parsed_passkey sample.lib
    (sample.hookWith (some sample.aead) none "" 0 sample.unreachable) sample.aead
    sample.background
    (sample.request [("credential", "AQIDBAUGBwgJCgsM8_VbW1tbW1tbW1tbW1tbW1tb")]) [] 0
    ⟨"", 0, .nil, .nil⟩ rfl (by decide!) (by decide!)).2

/-- C6, counterexample. A payload whose `Fd` holds the integer 1 is written as
the JSON text `{"pk":"mysecretpasskey","ts":1234567890,"fd":1}`, and the nonce
has the cipher's size.  `decrypt` applied to the base64 text of
`nonce ++ Seal(nonce, text)` succeeds, but `Fd` comes back as the `float64` 1,
the type `encoding/json` gives every number it reads into an `interface{}`:
the returned payload differs from the original in the field `Fd`. -/
theorem round_trip_turns_int_into_float64 :
    sample.nonce.length = sample.aead.NonceSize
    ∧ sample.lib.Marshal ⟨"mysecretpasskey", 1234567890, .int 1, .nil⟩
      = .ok (sample.ascii "\x7b\"pk\":\"mysecretpasskey\",\"ts\":1234567890,\"fd\":1\x7d")
    ∧ (sample.hookWith (some sample.aead) none "" 0 sample.unreachable).decrypt sample.lib
        (sample.lib.EncodeToString (sample.nonce ++ sample.aead.Seal [] sample.nonce
          (sample.ascii "\x7b\"pk\":\"mysecretpasskey\",\"ts\":1234567890,\"fd\":1\x7d") []))
      = .ok ⟨"mysecretpasskey", 1234567890, .float64 1, .nil⟩
    ∧ (sample.hookWith (some sample.aead) none "" 0 sample.unreachable).decrypt sample.lib
        (encrypt sample.lib sample.aead sample.nonce
          ⟨"mysecretpasskey", 1234567890, .int 1, .nil⟩)
      ≠ .ok ⟨"mysecretpasskey", 1234567890, .int 1, .nil⟩ := by
  decide!

/-- C6, amended. Round trip for the payloads that JSON gives back unchanged.
Let `bytes` be the JSON text of a payload that `Unmarshal` reads back from
`bytes` as it was, and `nonce` a nonce of the cipher's size.  With base64
decoding inverting the encoding and `Open` inverting `Seal` under the same
nonce on this input, `decrypt` applied to the base64 text of
`nonce ++ Seal(nonce, bytes)` returns the original payload in every field; so
does `decrypt` applied to the result of the tests' helper `encrypt`, which
seals with the nonce as destination. -/
theorem decrypt_inverts_encrypt {ρ η : Type} (lib : Stdlib) (h : hook ρ η) (a : cipher.AEAD)
    (nonce : Bytes) (payload : Payload) (bytes : Bytes)
    (hkey : h.aesGCM = some a) (hnonce : nonce.length = a.NonceSize)
    (hmarshal : lib.Marshal payload = .ok bytes)
    (hb64 : lib.DecodeString (lib.EncodeToString (nonce ++ a.Seal [] nonce bytes []))
      = .ok (nonce ++ a.Seal [] nonce bytes []))
    (hopen : a.Open [] nonce (a.Seal [] nonce bytes []) [] = .ok bytes)
    (hjson : lib.Unmarshal bytes = .ok payload) :
    h.decrypt lib (lib.EncodeToString (nonce ++ a.Seal [] nonce bytes [])) = .ok payload
      ∧ (a.Seal nonce nonce bytes [] = nonce ++ a.Seal [] nonce bytes [] →
          h.decrypt lib (encrypt lib a nonce payload) = .ok payload) := by
  have hlen : a.NonceSize ≤ (nonce ++ a.Seal [] nonce bytes []).length := by
    rw [List.length_append, hnonce]; exact Nat.le_add_right _ _
  have htake : (nonce ++ a.Seal [] nonce bytes []).take a.NonceSize = nonce := by
    rw [← hnonce]; exact List.take_left' rfl
  have hdrop : (nonce ++ a.Seal [] nonce bytes []).drop a.NonceSize = a.Seal [] nonce bytes [] := by
    rw [← hnonce]; exact List.drop_left' rfl
  have main : h.decrypt lib (lib.EncodeToString (nonce ++ a.Seal [] nonce bytes []))
      = .ok payload := by
    rw [decrypt_of_decoded lib h a _ _ hkey hb64 hlen, htake, hdrop, hopen]
    simp [hjson]
  refine ⟨main, fun hseal => ?_⟩
  unfold encrypt
  simp only [hmarshal, hseal]
  exact main

/-- C6, amended, at a concrete payload: the payload of
`TestEncryptDecrypt_WithFdPd`, whose `Fd` is a boolean and whose `Pd` is a
string, under the stand-in codecs and cipher. -/
theorem decrypt_inverts_encrypt_witness :
    (sample.hookWith (some sample.aead) none "" 0 sample.unreachable).decrypt sample.lib
        (encrypt sample.lib sample.aead sample.nonce
          ⟨"mysecretpasskey", 1234567890, .bool true, .string "50%"⟩)
      = .ok ⟨"mysecretpasskey", 1234567890, .bool true, .string "50%"⟩ :=
  (decrypt_inverts_encrypt sample.lib
    (sample.hookWith (some sample.aead) none "" 0 sample.unreachable) sample.aead sample.nonce
    ⟨"mysecretpasskey", 1234567890, .bool true, .string "50%"⟩
    (sample.ascii
      "\x7b\"pk\":\"mysecretpasskey\",\"ts\":1234567890,\"fd\":true,\"pd\":\"50%\"\x7d")
    rfl (by decide!) (by decide!) (by decide!) (by decide!) (by decide!)).2 (by decide!)

/-- C7. With a cipher configured, `decrypt` never panics, so the split into
nonce and ciphertext stays within the decoded bytes; it returns an error
exactly when the credential does not decode as base64, or decodes to fewer
bytes than the nonce size, or `Open` fails on the bytes after the first
nonce-size bytes with those first bytes as nonce and no associated data, or
the plaintext does not parse as a payload; otherwise it returns the parsed
payload. -/
theorem decrypt_error_iff {ρ η : Type} (lib : Stdlib) (h : hook ρ η) (a : cipher.AEAD)
    (c : String) (hkey : h.aesGCM = some a) :
    h.decrypt lib c ≠ .panic
    ∧ ((∃ e, h.decrypt lib c = .error e) ↔
        ((∃ e, lib.DecodeString c = .error e)
        ∨ (∃ data, lib.DecodeString c = .ok data ∧ data.length < a.NonceSize)
        ∨ (∃ data e, lib.DecodeString c = .ok data ∧ a.NonceSize ≤ data.length
            ∧ a.Open [] (data.take a.NonceSize) (data.drop a.NonceSize) [] = .error e)
        ∨ (∃ data plaintext e, lib.DecodeString c = .ok data ∧ a.NonceSize ≤ data.length
            ∧ a.Open [] (data.take a.NonceSize) (data.drop a.NonceSize) [] = .ok plaintext
            ∧ lib.Unmarshal plaintext = .error e)))
    ∧ (∀ data plaintext payload, lib.DecodeString c = .ok data → a.NonceSize ≤ data.length →
        a.Open [] (data.take a.NonceSize) (data.drop a.NonceSize) [] = .ok plaintext →
        lib.Unmarshal plaintext = .ok payload → h.decrypt lib c = .ok payload)
    ∧ (∀ data, lib.DecodeString c = .ok data → ¬ data.length < a.NonceSize →
        sliceTo data a.NonceSize = some (data.take a.NonceSize)
        ∧ sliceFrom data a.NonceSize = some (data.drop a.NonceSize)
        ∧ data.take a.NonceSize ++ data.drop a.NonceSize = data
        ∧ (data.take a.NonceSize).length = a.NonceSize) := by
  refine ⟨?_, ?_, ?_, ?_⟩
  · cases hd : lib.DecodeString c with
    | error e => simp [hook.decrypt, hkey, hd]
    | ok data =>
      by_cases hlen : data.length < a.NonceSize
      · simp [hook.decrypt, hkey, hd, hlen]
      · rw [decrypt_of_decoded lib h a c data hkey hd (Nat.le_of_not_lt hlen)]
        cases a.Open [] (data.take a.NonceSize) (data.drop a.NonceSize) [] with
        | error e => simp
        | ok plaintext => cases hj : lib.Unmarshal plaintext <;> simp [hj]
  · cases hd : lib.DecodeString c with
    | error e => simp [hook.decrypt, hkey, hd]
    | ok data =>
      by_cases hlen : data.length < a.NonceSize
      · simp [hook.decrypt, hkey, hd, hlen]
      · have hle : a.NonceSize ≤ data.length := Nat.le_of_not_lt hlen
        rw [decrypt_of_decoded lib h a c data hkey hd hle]
        cases ho : a.Open [] (data.take a.NonceSize) (data.drop a.NonceSize) [] with
        | error e => simp [hle, ho]
        | ok plaintext =>
          cases hj : lib.Unmarshal plaintext with
          | error e => simp [hle, ho, hj]
          | ok payload => simp [hlen, ho, hj]
  · intro data plaintext payload hd hle ho hj
    rw [decrypt_of_decoded lib h a c data hkey hd hle, ho]
    simp [hj]
  · intro data _ hlen
    have hle : a.NonceSize ≤ data.length := Nat.le_of_not_lt hlen
    exact ⟨by simp [sliceTo, hle], by simp [sliceFrom, hle], List.take_append_drop _ _,
      List.length_take_of_le hle⟩

/-- C7 at a concrete credential: `garbage` is not base64, so `decrypt` returns
an error on it. -/
theorem decrypt_error_iff_witness :
    ∃ e, (sample.hookWith (some sample.aead) none "" 0 sample.unreachable).decrypt sample.lib
        "garbage" = .error e :=
  (decrypt_error_iff sample.lib (sample.hookWith (some sample.aead) none "" 0 sample.unreachable)
    sample.aead "garbage" rfl).2.1.2 (Or.inl ⟨"illegal base64 data", by decide!⟩)

/-- The four ways `decrypt` fails, run on the stand-ins: text that is not
base64, a credential shorter than a nonce, a failed authentication (the
plaintext passkey of the tests, and a sealed text with one bit flipped), and
an authentic plaintext that is not a payload. -/
theorem decrypt_failures_run :
    (sample.hookWith (some sample.aead) none "" 0 sample.unreachable).decrypt sample.lib "garbage"
      = .error "illegal base64 data"
    ∧ (sample.hookWith (some sample.aead) none "" 0 sample.unreachable).decrypt sample.lib "AQID"
      = .error "ciphertext too short"
    ∧ (sample.hookWith (some sample.aead) none "" 0 sample.unreachable).decrypt sample.lib
        "plaintextpasskey" = .error "cipher: message authentication failed"
    ∧ (sample.hookWith (some sample.aead) none "" 0 sample.unreachable).decrypt sample.lib
        "AQIDBAUGBwgJCgsM8_VbW1tbW1tbW1tbW1tbW1tc" = .error "cipher: message authentication failed"
    ∧ (sample.hookWith (some sample.aead) none "" 0 sample.unreachable).decrypt sample.lib
        (sample.lib.EncodeToString
          (sample.aead.Seal sample.nonce sample.nonce (sample.ascii "[1]") []))
      = .error "json: cannot unmarshal" := by
  decide!

/-- Go's truncating `code/100 == 2` singles out the status codes 200 to 299. -/
theorem status_class_two (code : Int) : Int.tdiv code 100 = 2 ↔ 200 ≤ code ∧ code ≤ 299 := by
  rcases Int.le_total 0 code with hpos | hneg
  · rw [Int.tdiv_eq_ediv hpos (by decide)]
    omega
  · have h1 : Int.tdiv code 100 ≤ 0 := by
      have h2 : 0 ≤ Int.tdiv (-code) 100 := Int.tdiv_nonneg (by omega) (by decide)
      rw [Int.neg_tdiv] at h2
      omega
    constructor
    · intro h; omega
    · intro h; omega

/-- The stage before the cache depends on the hook through its cipher only. -/
theorem resolve_congr {ρ η ρ' η' : Type} (lib : Stdlib) (h : hook ρ η) (k : hook ρ' η')
    (ctx : Context) (req : AnnounceRequest) (hk : h.aesGCM = k.aesGCM) :
    resolve lib h ctx req = resolve lib k ctx req := by
  unfold resolve hook.decrypt
  rw [hk]

/-- The stage before the cache calls neither the cache nor the authority. -/
theorem resolve_events {ρ η : Type} (lib : Stdlib) (h : hook ρ η) (ctx : Context)
    (req : AnnounceRequest) :
    commands (resolve lib h ctx req).2 = [] ∧ requests (resolve lib h ctx req).2 = [] := by
  unfold resolve
  cases h.aesGCM with
  | none => by_cases hp : passkeyOf ctx req = "" <;> simp [hp, commands, requests]
  | some a =>
    by_cases hc : credentialOf ctx req = ""
    · simp [hc, commands, requests]
    · cases hd : h.decrypt lib (credentialOf ctx req) <;> simp [hc, hd, commands, requests]

/-- The cache approves exactly when a pool is configured and `SISMEMBER`
answers `true` without error. -/
theorem lookup_approved_iff {ρ η : Type} (h : hook ρ η) (passkey : String) (r : ρ) :
    (lookup h passkey r).approved = true ↔
      ∃ pool, h.pool = some pool ∧ (pool.SISMEMBER r h.cfg.SetKey passkey).1 = (true, none) := by
  unfold lookup
  cases hp : h.pool with
  | none => simp
  | some pool =>
    rcases hs : pool.SISMEMBER r h.cfg.SetKey passkey with ⟨⟨ok, err⟩, r1⟩
    cases ok <;> cases err <;> simp [hs]

/-- The authority approves exactly when a URL is configured, the request is
built and performed without error, and the response has a status of class 2
and a body whose `data.valid` is true. -/
theorem consult_approved_iff {ρ η : Type} (lib : Stdlib) (h : hook ρ η) (passkey : String)
    (s : η) :
    (consult lib h passkey s).approved = true ↔
      h.cfg.HTTPURL ≠ ""
      ∧ lib.NewRequestErr (authorityURL lib h.cfg.HTTPURL passkey) = none
      ∧ ∃ resp, (h.httpClient.Do s
            (authorityRequest h.cfg (authorityURL lib h.cfg.HTTPURL passkey))).1 = (some resp, none)
          ∧ 200 ≤ resp.StatusCode ∧ resp.StatusCode ≤ 299
          ∧ lib.UnmarshalValid resp.Body = true := by
  unfold consult
  by_cases hu : h.cfg.HTTPURL = ""
  · simp [hu]
  · simp only [ne_eq, hu, not_false_eq_true, if_true, true_and]
    cases hn : lib.NewRequestErr (authorityURL lib h.cfg.HTTPURL passkey) with
    | some e => simp
    | none =>
      rcases hd : h.httpClient.Do s
        (authorityRequest h.cfg (authorityURL lib h.cfg.HTTPURL passkey)) with ⟨⟨resp, err⟩, s1⟩
      cases err with
      | some e => simp
      | none =>
        cases resp with
        | none => simp
        | some resp => simp [status_class_two, and_assoc]

/-- A run that reaches line 256 with a passkey is the run of the cache and
authority stages on it. -/
theorem HandleAnnounce_of_resolved {ρ η : Type} (lib : Stdlib) (h : hook ρ η) (ctx : Context)
    (req : AnnounceRequest) (r : ρ) (s : η) (passkey : String) (ctx1 : Context)
    (trace : List Event) (hres : resolve lib h ctx req = (.passkey passkey ctx1, trace)) :
    h.HandleAnnounce lib ctx req r s = checkPasskey lib h ctx1 passkey trace r s := by
  unfold hook.HandleAnnounce
  rw [hres]

/-- Without cache approval the returned context and error, the authority's
state and the requests made are those of the exchange with the authority. -/
theorem checkPasskey_of_miss {ρ η : Type} (lib : Stdlib) (h : hook ρ η) (ctx : Context)
    (passkey : String) (trace : List Event) (r : ρ) (s : η)
    (hmiss : (lookup h passkey r).approved = false) :
    (checkPasskey lib h ctx passkey trace r s).ctx = ctx
      ∧ (checkPasskey lib h ctx passkey trace r s).err
          = (if (consult lib h passkey s).approved = true then Status.nil
              else Status.error ErrUnapprovedPasskey)
      ∧ (checkPasskey lib h ctx passkey trace r s).authority = (consult lib h passkey s).state
      ∧ requests (checkPasskey lib h ctx passkey trace r s).trace
          = requests trace ++ requests (consult lib h passkey s).events := by
  unfold checkPasskey
  simp only [hmiss]
  by_cases hv : (consult lib h passkey s).approved = true
  · simp [hv, requests_append, (lookup_events h passkey r).2, (remember_events h passkey _).2]
  · simp [hv, requests_append, (lookup_events h passkey r).2]

/-- With encryption disabled a non-empty passkey parameter is the resolved
passkey, and the context stays as it is. -/
theorem resolve_plain {ρ η : Type} (lib : Stdlib) (h : hook ρ η) (ctx : Context)
    (req : AnnounceRequest) (hkey : h.aesGCM = none) (hp : passkeyOf ctx req ≠ "") :
    resolve lib h ctx req = (.passkey (passkeyOf ctx req) ctx, []) := by
  unfold resolve
  simp [hkey, hp]

/-- C8. When the request resolves to a passkey, a pool is configured and
`SISMEMBER` answers `true` without error, `HandleAnnounce` returns `nil` right
after the lookup: no request reaches the authority, whose state is untouched,
whatever it would have answered. -/
theorem cache_hit_approves {ρ η : Type} (lib : Stdlib) (h : hook ρ η) (pool : redis.Pool ρ)
    (ctx : Context) (req : AnnounceRequest) (r : ρ) (s : η) (passkey : String)
    (ctx1 : Context) (trace : List Event)
    (hres : resolve lib h ctx req = (.passkey passkey ctx1, trace))
    (hpool : h.pool = some pool)
    (hhit : (pool.SISMEMBER r h.cfg.SetKey passkey).1 = (true, none)) :
    h.HandleAnnounce lib ctx req r s
        = ⟨ctx1, .nil, trace ++ [.redis (.SISMEMBER h.cfg.SetKey passkey)],
            (pool.SISMEMBER r h.cfg.SetKey passkey).2, s⟩
      ∧ requests (h.HandleAnnounce lib ctx req r s).trace = [] := by
  have hlook : lookup h passkey r
      = ⟨true, [.redis (.SISMEMBER h.cfg.SetKey passkey)],
          (pool.SISMEMBER r h.cfg.SetKey passkey).2⟩ := by
    unfold lookup
    rcases hs : pool.SISMEMBER r h.cfg.SetKey passkey with ⟨⟨ok, err⟩, r1⟩
    rw [hs] at hhit
    simp only [Prod.mk.injEq] at hhit
    simp [hpool, hs, hhit.1, hhit.2]
  have hrun : h.HandleAnnounce lib ctx req r s
      = ⟨ctx1, .nil, trace ++ [.redis (.SISMEMBER h.cfg.SetKey passkey)],
          (pool.SISMEMBER r h.cfg.SetKey passkey).2, s⟩ := by
    rw [HandleAnnounce_of_resolved lib h ctx req r s passkey ctx1 trace hres]
    unfold checkPasskey
    simp [hlook]
  refine ⟨hrun, ?_⟩
  have hev := (resolve_events lib h ctx req).2
  rw [hres] at hev
  rw [hrun]
  simp [requests_append, requests, hev]

/-- C8 at a concrete request: the passkey is in the cache set and the
authority would refuse it; it is approved and the authority is not called. -/
theorem cache_hit_approves_witness :
    (sample.hookWith none (some sample.setPool) "http://authority/check" 60
        (sample.fixedClient (some ⟨403, sample.invalidBody⟩, none))).HandleAnnounce sample.lib
        sample.background (sample.request [("passkey", "known")]) [("pt:passkeys", "known")] 0
      = ⟨sample.background, .nil, [.redis (.SISMEMBER "pt:passkeys" "known")],
          [("pt:passkeys", "known")], 0⟩ :=
  (cache_hit_approves sample.lib
    (sample.hookWith none (some sample.setPool) "http://authority/check" 60
      (sample.fixedClient (some ⟨403, sample.invalidBody⟩, none)))
    sample.setPool sample.background (sample.request [("passkey", "known")])
    [("pt:passkeys", "known")] 0 "known" sample.background []
    (resolve_plain sample.lib _ sample.background (sample.request [("passkey", "known")]) rfl
      (by decide!))
    rfl (by decide!)).1

/-- A pool that gives no approval leaves the outcome of the run what it is
without any pool. -/
theorem outcome_without_approval {ρ η : Type} (lib : Stdlib) (h : hook ρ η) (ctx : Context)
    (req : AnnounceRequest) (r : ρ) (s : η) (passkey : String) (ctx1 : Context)
    (trace : List Event) (pool : redis.Pool ρ)
    (hres : resolve lib h ctx req = (.passkey passkey ctx1, trace))
    (hno : (pool.SISMEMBER r h.cfg.SetKey passkey).1 ≠ (true, none)) :
    (({ h with pool := some pool } : hook ρ η).HandleAnnounce lib ctx req r s).outcome
      = (({ h with pool := none } : hook ρ η).HandleAnnounce lib ctx req r s).outcome := by
  have hres1 : resolve lib ({ h with pool := some pool } : hook ρ η) ctx req
      = (.passkey passkey ctx1, trace) :=
    (resolve_congr lib ({ h with pool := some pool } : hook ρ η) h ctx req rfl).trans hres
  have hres0 : resolve lib ({ h with pool := none } : hook ρ η) ctx req
      = (.passkey passkey ctx1, trace) :=
    (resolve_congr lib ({ h with pool := none } : hook ρ η) h ctx req rfl).trans hres
  have hmiss1 : (lookup ({ h with pool := some pool } : hook ρ η) passkey r).approved = false := by
    rw [Bool.eq_false_iff]
    intro happ
    rcases (lookup_approved_iff _ passkey r).1 happ with ⟨q, hq, hhit⟩
    simp only [Option.some.injEq] at hq
    subst hq
    exact hno hhit
  have hmiss0 : (lookup ({ h with pool := none } : hook ρ η) passkey r).approved = false := rfl
  have h1 := checkPasskey_of_miss lib ({ h with pool := some pool } : hook ρ η) ctx1 passkey
    trace r s hmiss1
  have h0 := checkPasskey_of_miss lib ({ h with pool := none } : hook ρ η) ctx1 passkey
    trace r s hmiss0
  have hc : consult lib ({ h with pool := some pool } : hook ρ η) passkey s
      = consult lib ({ h with pool := none } : hook ρ η) passkey s := rfl
  unfold Result.outcome
  rw [HandleAnnounce_of_resolved lib _ ctx req r s passkey ctx1 trace hres1,
    HandleAnnounce_of_resolved lib _ ctx req r s passkey ctx1 trace hres0,
    h1.1, h1.2.1, h1.2.2.1, h1.2.2.2, h0.1, h0.2.1, h0.2.2.1, h0.2.2.2, hc]

/-- C9. For a request that resolves to a passkey and a fixed authority, the
returned context and error (and what the authority sees) are the same in the
three cases without cache approval: no pool configured, a pool whose
`SISMEMBER` reports the passkey absent, and a pool whose `SISMEMBER` returns
an error.  So a miss or an error of the cache never rejects a request that
the authority would approve. -/
theorem cache_without_approval_is_passthrough {ρ η : Type} (lib : Stdlib) (h : hook ρ η)
    (ctx : Context) (req : AnnounceRequest) (r : ρ) (s : η) (passkey : String) (ctx1 : Context)
    (trace : List Event) (absent failing : redis.Pool ρ) (b : Bool) (e : GoError)
    (hres : resolve lib h ctx req = (.passkey passkey ctx1, trace))
    (habsent : (absent.SISMEMBER r h.cfg.SetKey passkey).1 = (false, none))
    (hfailing : (failing.SISMEMBER r h.cfg.SetKey passkey).1 = (b, some e)) :
    (({ h with pool := some absent } : hook ρ η).HandleAnnounce lib ctx req r s).outcome
        = (({ h with pool := none } : hook ρ η).HandleAnnounce lib ctx req r s).outcome
      ∧ (({ h with pool := some failing } : hook ρ η).HandleAnnounce lib ctx req r s).outcome
        = (({ h with pool := none } : hook ρ η).HandleAnnounce lib ctx req r s).outcome := by
  constructor
  · apply outcome_without_approval lib h ctx req r s passkey ctx1 trace absent hres
    rw [habsent]; simp
  · apply outcome_without_approval lib h ctx req r s passkey ctx1 trace failing hres
    rw [hfailing]; simp

/-- C9 at a concrete request: an authority that approves, behind an empty
cache and behind a cache that is down. -/
theorem cache_without_approval_is_passthrough_witness :
    (({ sample.hookWith none none "http://authority/check" 60
          (sample.fixedClient (some ⟨200, sample.validBody⟩, none)) with
          pool := some sample.setPool } : hook (List (String × String)) Nat).HandleAnnounce
        sample.lib sample.background (sample.request [("passkey", "valid_passkey")]) [] 0).outcome
      = (({ sample.hookWith none none "http://authority/check" 60
          (sample.fixedClient (some ⟨200, sample.validBody⟩, none)) with
          pool := none } : hook (List (String × String)) Nat).HandleAnnounce
        sample.lib sample.background (sample.request [("passkey", "valid_passkey")]) [] 0).outcome :=
  (cache_without_approval_is_passthrough sample.lib
    (sample.hookWith none none "http://authority/check" 60
      (sample.fixedClient (some ⟨200, sample.validBody⟩, none)))
    sample.background (sample.request [("passkey", "valid_passkey")]) [] 0 "valid_passkey"
    sample.background [] sample.setPool sample.downPool false "dial tcp: connection refused"
    (resolve_plain sample.lib _ sample.background
      (sample.request [("passkey", "valid_passkey")]) rfl (by decide!))
    (by decide!) (by decide!)).1

/-- C10. When the request resolves to a passkey and the cache gives no
approval, `HandleAnnounce` returns `nil` exactly when an authority URL is
configured, the request is built and performed without error, the response
status lies in 200..299 and the `data.valid` of its body is true; in every
other case it returns `ErrUnapprovedPasskey`. -/
theorem authority_decides {ρ η : Type} (lib : Stdlib) (h : hook ρ η) (ctx : Context)
    (req : AnnounceRequest) (r : ρ) (s : η) (passkey : String) (ctx1 : Context)
    (trace : List Event)
    (hres : resolve lib h ctx req = (.passkey passkey ctx1, trace))
    (hmiss : ∀ pool, h.pool = some pool →
      (pool.SISMEMBER r h.cfg.SetKey passkey).1 ≠ (true, none)) :
    ((h.HandleAnnounce lib ctx req r s).err = .nil ↔
        h.cfg.HTTPURL ≠ ""
        ∧ lib.NewRequestErr (authorityURL lib h.cfg.HTTPURL passkey) = none
        ∧ ∃ resp, (h.httpClient.Do s
              (authorityRequest h.cfg (authorityURL lib h.cfg.HTTPURL passkey))).1
              = (some resp, none)
            ∧ 200 ≤ resp.StatusCode ∧ resp.StatusCode ≤ 299
            ∧ lib.UnmarshalValid resp.Body = true)
      ∧ ((h.HandleAnnounce lib ctx req r s).err ≠ .nil →
          (h.HandleAnnounce lib ctx req r s).err = .error ErrUnapprovedPasskey) := by
  have hlook : (lookup h passkey r).approved = false := by
    rw [Bool.eq_false_iff]
    intro happ
    rcases (lookup_approved_iff h passkey r).1 happ with ⟨pool, hp, hhit⟩
    exact hmiss pool hp hhit
  have herr := (checkPasskey_of_miss lib h ctx1 passkey trace r s hlook).2.1
  rw [HandleAnnounce_of_resolved lib h ctx req r s passkey ctx1 trace hres, herr,
    ← consult_approved_iff lib h passkey s]
  by_cases hv : (consult lib h passkey s).approved = true <;> simp [hv]

/-- C10 at a concrete request: the approving answer of the test server of
`TestHandleAnnounce_HTTPValidation`. -/
theorem authority_decides_witness :
    ((sample.hookWith none none "http://authority/check" 0
        (sample.fixedClient (some ⟨200, sample.validBody⟩, none))).HandleAnnounce sample.lib
        sample.background (sample.request [("passkey", "valid_passkey")]) [] 0).err = .nil :=
  (authority_decides sample.lib
    (sample.hookWith none none "http://authority/check" 0
      (sample.fixedClient (some ⟨200, sample.validBody⟩, none)))
    sample.background (sample.request [("passkey", "valid_passkey")]) [] 0 "valid_passkey"
    sample.background []
    (resolve_plain sample.lib _ sample.background
      (sample.request [("passkey", "valid_passkey")]) rfl (by decide!))
    (by intro pool hp; cases hp)).1.2
    ⟨by decide!, by decide!, ⟨200, sample.validBody⟩, rfl, by decide, by decide, by decide!⟩

/-- The answers an authority can give, run on the stand-ins without a cache:
approval; `valid` false; `valid` true under status 500; a network error; no
URL configured.  Only the first is approved. -/
theorem authority_answers_run :
    ((sample.hookWith none none "http://authority/check" 0
        (sample.fixedClient (some ⟨200, sample.validBody⟩, none))).HandleAnnounce sample.lib
        sample.background (sample.request [("passkey", "valid_passkey")]) [] 0).err = .nil
    ∧ ((sample.hookWith none none "http://authority/check" 0
        (sample.fixedClient (some ⟨200, sample.invalidBody⟩, none))).HandleAnnounce sample.lib
        sample.background (sample.request [("passkey", "invalid_passkey")]) [] 0).err
      = .error ErrUnapprovedPasskey
    ∧ ((sample.hookWith none none "http://authority/check" 0
        (sample.fixedClient (some ⟨500, sample.validBody⟩, none))).HandleAnnounce sample.lib
        sample.background (sample.request [("passkey", "valid_passkey")]) [] 0).err
      = .error ErrUnapprovedPasskey
    ∧ ((sample.hookWith none none "http://authority/check" 0
        sample.unreachable).HandleAnnounce sample.lib
        sample.background (sample.request [("passkey", "valid_passkey")]) [] 0).err
      = .error ErrUnapprovedPasskey
    ∧ ((sample.hookWith none none "" 0
        (sample.fixedClient (some ⟨200, sample.validBody⟩, none))).HandleAnnounce sample.lib
        sample.background (sample.request [("passkey", "valid_passkey")]) [] 0).err
      = .error ErrUnapprovedPasskey := by
  decide!

/-- The write commands of a concatenated trace. -/
theorem writes_append (a b : List Event) : writes (a ++ b) = writes a ++ writes b := by
  induction a with
  | nil => rfl
  | cons e t ih =>
    cases e with
    | decrypt c => simp [writes, ih]
    | http q => simp [writes, ih]
    | redis c => cases c <;> simp [writes, ih]

/-- The trace of the cache and authority stages: the lookup, then, without a
hit, the exchange with the authority, then, on approval, the write-back. -/
theorem checkPasskey_trace {ρ η : Type} (lib : Stdlib) (h : hook ρ η) (ctx : Context)
    (passkey : String) (trace : List Event) (r : ρ) (s : η) :
    (checkPasskey lib h ctx passkey trace r s).trace
      = trace ++ (lookup h passkey r).events
          ++ (if (lookup h passkey r).approved = true then []
              else (consult lib h passkey s).events
                ++ (if (consult lib h passkey s).approved = true
                    then (remember h passkey (lookup h passkey r).state).1 else [])) := by
  unfold checkPasskey
  by_cases hh : (lookup h passkey r).approved = true
  · simp [hh]
  · by_cases hv : (consult lib h passkey s).approved = true
    · simp [hh, hv]
    · simp [hh, hv]

/-- The state of the store after the cache and authority stages: what the
lookup left, or what the write-back left when the authority approved. -/
theorem checkPasskey_store {ρ η : Type} (lib : Stdlib) (h : hook ρ η) (ctx : Context)
    (passkey : String) (trace : List Event) (r : ρ) (s : η) :
    (checkPasskey lib h ctx passkey trace r s).store
      = (if (lookup h passkey r).approved = false ∧ (consult lib h passkey s).approved = true
          then (remember h passkey (lookup h passkey r).state).2
          else (lookup h passkey r).state) := by
  unfold checkPasskey
  by_cases hh : (lookup h passkey r).approved = true
  · simp [hh]
  · by_cases hv : (consult lib h passkey s).approved = true
    · simp [hh, hv]
    · simp [hh, hv]

/-- The context is not touched by the cache and authority stages. -/
theorem checkPasskey_ctx {ρ η : Type} (lib : Stdlib) (h : hook ρ η) (ctx : Context)
    (passkey : String) (trace : List Event) (r : ρ) (s : η) :
    (checkPasskey lib h ctx passkey trace r s).ctx = ctx := by
  unfold checkPasskey
  by_cases hh : (lookup h passkey r).approved = true
  · simp [hh]
  · by_cases hv : (consult lib h passkey s).approved = true
    · simp [hh, hv]
    · simp [hh, hv]

/-- The error returned by the cache and authority stages. -/
theorem checkPasskey_err {ρ η : Type} (lib : Stdlib) (h : hook ρ η) (ctx : Context)
    (passkey : String) (trace : List Event) (r : ρ) (s : η) :
    (checkPasskey lib h ctx passkey trace r s).err
      = (if (lookup h passkey r).approved = true ∨ (consult lib h passkey s).approved = true
          then Status.nil else Status.error ErrUnapprovedPasskey) := by
  unfold checkPasskey
  by_cases hh : (lookup h passkey r).approved = true
  · simp [hh]
  · by_cases hv : (consult lib h passkey s).approved = true
    · simp [hh, hv]
    · simp [hh, hv]

/-- The events of the lookup: nothing without a pool, one `SISMEMBER` of the
passkey with one. -/
theorem lookup_events_eq {ρ η : Type} (h : hook ρ η) (passkey : String) (r : ρ) :
    (lookup h passkey r).events
      = (if h.pool.isSome then [.redis (.SISMEMBER h.cfg.SetKey passkey)] else []) := by
  unfold lookup
  cases h.pool <;> simp

/-- The write-back: `SADD` of the passkey then `EXPIRE` of the set, exactly
when a pool and a positive TTL are configured. -/
theorem remember_eq {ρ η : Type} (h : hook ρ η) (passkey : String) (r : ρ) :
    (remember h passkey r).1
        = (if h.pool.isSome ∧ h.cfg.CacheTTLSeconds > 0
            then [.redis (.SADD h.cfg.SetKey passkey),
              .redis (.EXPIRE h.cfg.SetKey h.cfg.CacheTTLSeconds)]
            else [])
      ∧ (∀ pool, h.pool = some pool → h.cfg.CacheTTLSeconds > 0 →
          (remember h passkey r).2
            = pool.EXPIRE (pool.SADD r h.cfg.SetKey passkey) h.cfg.SetKey h.cfg.CacheTTLSeconds)
      ∧ (¬ (h.pool.isSome ∧ h.cfg.CacheTTLSeconds > 0) → (remember h passkey r).2 = r) := by
  unfold remember
  cases hp : h.pool with
  | none => simp
  | some pool => by_cases ht : h.cfg.CacheTTLSeconds > 0 <;> simp [ht]

/-- The events of the exchange with the authority: nothing, or the one request
for the passkey. -/
theorem consult_events_eq {ρ η : Type} (lib : Stdlib) (h : hook ρ η) (passkey : String)
    (s : η) :
    (consult lib h passkey s).events = []
      ∨ (consult lib h passkey s).events
        = [.http (authorityRequest h.cfg (authorityURL lib h.cfg.HTTPURL passkey))] := by
  unfold consult
  by_cases hu : h.cfg.HTTPURL = ""
  · simp [hu]
  · simp only [ne_eq, hu, not_false_eq_true, if_true]
    cases lib.NewRequestErr (authorityURL lib h.cfg.HTTPURL passkey) with
    | some e => simp
    | none =>
      rcases h.httpClient.Do s (authorityRequest h.cfg (authorityURL lib h.cfg.HTTPURL passkey))
        with ⟨⟨resp, err⟩, s1⟩
      cases err <;> cases resp <;> simp

/-- The authority stage approves exactly when `AuthorityApproves` holds. -/
theorem consult_approved_iff_approves {ρ η : Type} (lib : Stdlib) (h : hook ρ η)
    (passkey : String) (s : η) :
    (consult lib h passkey s).approved = true ↔ AuthorityApproves lib h passkey s :=
  consult_approved_iff lib h passkey s

/-- The cache stage approves exactly when `CacheHit` holds. -/
theorem lookup_approved_iff_hit {ρ η : Type} (h : hook ρ η) (passkey : String) (r : ρ) :
    (lookup h passkey r).approved = true ↔ CacheHit h passkey r :=
  lookup_approved_iff h passkey r

/-- The stage before the cache writes nothing to it. -/
theorem resolve_writes {ρ η : Type} (lib : Stdlib) (h : hook ρ η) (ctx : Context)
    (req : AnnounceRequest) : writes (resolve lib h ctx req).2 = [] := by
  unfold resolve
  cases h.aesGCM with
  | none => by_cases hp : passkeyOf ctx req = "" <;> simp [hp, writes]
  | some a =>
    by_cases hc : credentialOf ctx req = ""
    · simp [hc, writes]
    · cases hd : h.decrypt lib (credentialOf ctx req) <;> simp [hc, hd, writes]

/-- The state the lookup leaves: the store as it was without a pool, otherwise
the state `SISMEMBER` returns. -/
theorem lookup_state {ρ η : Type} (h : hook ρ η) (passkey : String) (r : ρ) :
    (h.pool = none → (lookup h passkey r).state = r)
      ∧ (∀ pool, h.pool = some pool →
          (lookup h passkey r).state = (pool.SISMEMBER r h.cfg.SetKey passkey).2) := by
  unfold lookup
  constructor
  · intro hp; simp [hp]
  · intro pool hp; simp [hp]

/-- The write commands of the cache and authority stages. -/
theorem checkPasskey_writes {ρ η : Type} (lib : Stdlib) (h : hook ρ η) (ctx : Context)
    (passkey : String) (trace : List Event) (r : ρ) (s : η) :
    writes (checkPasskey lib h ctx passkey trace r s).trace
      = writes trace
        ++ (if (lookup h passkey r).approved = false ∧ (consult lib h passkey s).approved = true
              ∧ h.pool.isSome = true ∧ h.cfg.CacheTTLSeconds > 0
            then [.SADD h.cfg.SetKey passkey, .EXPIRE h.cfg.SetKey h.cfg.CacheTTLSeconds]
            else []) := by
  rw [checkPasskey_trace]
  have hc : writes (consult lib h passkey s).events = [] := by
    rcases consult_events_eq lib h passkey s with he | he <;> simp [he, writes]
  have hl : writes (lookup h passkey r).events = [] := by
    rw [lookup_events_eq]; cases h.pool <;> simp [writes]
  have hr := (remember_eq h passkey (lookup h passkey r).state).1
  by_cases hh : (lookup h passkey r).approved = true
  · simp [hh, writes_append, hl]
  · by_cases hv : (consult lib h passkey s).approved = true
    · by_cases hw : h.pool.isSome = true ∧ h.cfg.CacheTTLSeconds > 0
      · rw [if_pos hw] at hr
        rw [if_neg hh, if_pos hv, hr, if_pos ⟨by simpa using hh, hv, hw.1, hw.2⟩]
        simp [writes_append, hl, hc, writes]
      · rw [if_neg hw] at hr
        rw [if_neg hh, if_pos hv, hr, if_neg (fun hx => hw ⟨hx.2.2.1, hx.2.2.2⟩)]
        simp [writes_append, hl, hc]
    · rw [if_neg hh, if_neg hv, if_neg (fun hx => hv hx.2.1)]
      simp [writes_append, hl, hc]

/-- The condition of the write-back in the words of the specification. -/
theorem write_condition_iff {ρ η : Type} (lib : Stdlib) (h : hook ρ η) (passkey : String)
    (r : ρ) (s : η) :
    ((lookup h passkey r).approved = false ∧ (consult lib h passkey s).approved = true
        ∧ h.pool.isSome = true ∧ h.cfg.CacheTTLSeconds > 0)
      ↔ (¬ CacheHit h passkey r ∧ AuthorityApproves lib h passkey s
          ∧ h.pool.isSome = true ∧ h.cfg.CacheTTLSeconds > 0) := by
  rw [← lookup_approved_iff_hit, ← consult_approved_iff_approves, Bool.not_eq_true]

/-- C11. The cache receives a write, `SADD` of the passkey to the configured
set followed by `EXPIRE` of the set with `CacheTTLSeconds`, exactly in the
runs that resolve to a passkey, get no cache hit, are approved by the
authority (status 2xx and `data.valid` true), and have a pool and a positive
TTL configured.  In every other run (authority answer without approval, cache
hit, no pool, TTL not positive, missing or malformed credential) no write
command is sent and the store is as the run found it or as the membership
test left it. -/
theorem cache_written_iff_authority_approved {ρ η : Type} (lib : Stdlib) (h : hook ρ η)
    (ctx : Context) (req : AnnounceRequest) (r : ρ) (s : η) :
    (∀ passkey ctx1 trace, resolve lib h ctx req = (.passkey passkey ctx1, trace) →
        (writes (h.HandleAnnounce lib ctx req r s).trace
            = [.SADD h.cfg.SetKey passkey, .EXPIRE h.cfg.SetKey h.cfg.CacheTTLSeconds]
          ↔ (¬ CacheHit h passkey r ∧ AuthorityApproves lib h passkey s
              ∧ h.pool.isSome = true ∧ h.cfg.CacheTTLSeconds > 0))
        ∧ (¬ (¬ CacheHit h passkey r ∧ AuthorityApproves lib h passkey s
              ∧ h.pool.isSome = true ∧ h.cfg.CacheTTLSeconds > 0) →
            writes (h.HandleAnnounce lib ctx req r s).trace = []
            ∧ (h.HandleAnnounce lib ctx req r s).store = (lookup h passkey r).state
            ∧ ((∀ pool, h.pool = some pool →
                  (pool.SISMEMBER r h.cfg.SetKey passkey).2 = r) →
                (h.HandleAnnounce lib ctx req r s).store = r))
        ∧ ((¬ CacheHit h passkey r ∧ AuthorityApproves lib h passkey s
              ∧ h.pool.isSome = true ∧ h.cfg.CacheTTLSeconds > 0) →
            ∀ pool, h.pool = some pool →
              (h.HandleAnnounce lib ctx req r s).store
                = pool.EXPIRE (pool.SADD (lookup h passkey r).state h.cfg.SetKey passkey)
                    h.cfg.SetKey h.cfg.CacheTTLSeconds))
      ∧ (∀ err trace, resolve lib h ctx req = (.returned err, trace) →
          writes (h.HandleAnnounce lib ctx req r s).trace = []
          ∧ (h.HandleAnnounce lib ctx req r s).store = r) := by
  constructor
  · intro passkey ctx1 trace hres
    have htr : writes trace = [] := by
      have := resolve_writes lib h ctx req
      rw [hres] at this
      exact this
    have hw := checkPasskey_writes lib h ctx1 passkey trace r s
    have hst := checkPasskey_store lib h ctx1 passkey trace r s
    have hiff := write_condition_iff lib h passkey r s
    rw [HandleAnnounce_of_resolved lib h ctx req r s passkey ctx1 trace hres]
    rw [htr, List.nil_append] at hw
    by_cases hb : (lookup h passkey r).approved = false
        ∧ (consult lib h passkey s).approved = true
        ∧ h.pool.isSome = true ∧ h.cfg.CacheTTLSeconds > 0
    · have hc := hiff.1 hb
      rw [if_pos hb] at hw
      refine ⟨⟨fun _ => hc, fun _ => hw⟩, fun hn => absurd hc hn, fun _ pool hp => ?_⟩
      rw [hst, if_pos ⟨hb.1, hb.2.1⟩]
      exact (remember_eq h passkey _).2.1 pool hp hb.2.2.2
    · have hc : ¬ (¬ CacheHit h passkey r ∧ AuthorityApproves lib h passkey s
          ∧ h.pool.isSome = true ∧ h.cfg.CacheTTLSeconds > 0) := fun hx => hb (hiff.2 hx)
      rw [if_neg hb] at hw
      refine ⟨⟨fun hx => ?_, fun hx => absurd hx hc⟩, fun _ => ?_, fun hx => absurd hx hc⟩
      · rw [hw] at hx; cases hx
      · have hstore : (checkPasskey lib h ctx1 passkey trace r s).store
            = (lookup h passkey r).state := by
          rw [hst]
          by_cases hlv : (lookup h passkey r).approved = false
              ∧ (consult lib h passkey s).approved = true
          · rw [if_pos hlv]
            apply (remember_eq h passkey _).2.2
            intro hpt
            exact hb ⟨hlv.1, hlv.2, hpt.1, hpt.2⟩
          · rw [if_neg hlv]
        refine ⟨hw, hstore, fun hro => ?_⟩
        rw [hstore]
        cases hp : h.pool with
        | none => exact (lookup_state h passkey r).1 hp
        | some pool => rw [(lookup_state h passkey r).2 pool hp]; exact hro pool hp
  · intro err trace hres
    have htr : writes trace = [] := by
      have := resolve_writes lib h ctx req
      rw [hres] at this
      exact this
    unfold hook.HandleAnnounce
    rw [hres]
    exact ⟨htr, rfl⟩

/-- C11 on the stand-ins: an approval with pool and TTL is written to the
cache; an answer with `valid` false, a cache hit, and an approval with TTL 0
are not. -/
theorem cache_written_run :
    ((sample.hookWith none (some sample.setPool) "http://authority/check" 60
        (sample.fixedClient (some ⟨200, sample.validBody⟩, none))).HandleAnnounce sample.lib
        sample.background (sample.request [("passkey", "P")]) [] 0).trace
      = [.redis (.SISMEMBER "pt:passkeys" "P"),
          .http ⟨"GET", "http://authority/check?passkey=P", []⟩,
          .redis (.SADD "pt:passkeys" "P"), .redis (.EXPIRE "pt:passkeys" 60)]
    ∧ ((sample.hookWith none (some sample.setPool) "http://authority/check" 60
        (sample.fixedClient (some ⟨200, sample.invalidBody⟩, none))).HandleAnnounce sample.lib
        sample.background (sample.request [("passkey", "P")]) [] 0).store = []
    ∧ ((sample.hookWith none (some sample.setPool) "http://authority/check" 60
        (sample.fixedClient (some ⟨200, sample.validBody⟩, none))).HandleAnnounce sample.lib
        sample.background (sample.request [("passkey", "P")]) [("pt:passkeys", "P")] 0).trace
      = [.redis (.SISMEMBER "pt:passkeys" "P")]
    ∧ ((sample.hookWith none (some sample.setPool) "http://authority/check" 0
        (sample.fixedClient (some ⟨200, sample.validBody⟩, none))).HandleAnnounce sample.lib
        sample.background (sample.request [("passkey", "P")]) [] 0).store = [] := by
  decide!

/-- The context a run returns is the one the stage before the cache produced,
or the input context when that stage returned. -/
theorem HandleAnnounce_ctx {ρ η : Type} (lib : Stdlib) (h : hook ρ η) (ctx : Context)
    (req : AnnounceRequest) (r : ρ) (s : η) :
    (h.HandleAnnounce lib ctx req r s).ctx
      = match (resolve lib h ctx req).1 with
        | .returned _ => ctx
        | .passkey _ ctx1 => ctx1 := by
  unfold hook.HandleAnnounce
  rcases hres : resolve lib h ctx req with ⟨res, trace⟩
  cases res with
  | returned err => rfl
  | passkey passkey ctx1 => simp [checkPasskey_ctx]

/-- C13. When encryption is configured and `decrypt` succeeds on the extracted
credential, the returned context is the input context with the decrypted
payload stored under `PasskeyPayloadKey`, whatever the final outcome (cache
hit, approval or refusal by the authority).  In every other run (encryption
disabled, missing credential, malformed credential) the returned context is
the input context.  Hence, for an input context without payload, the returned
context carries a payload exactly when encryption is configured and
decryption succeeded, and the payload is the decrypted one. -/
theorem payload_attached_iff_decrypted {ρ η : Type} (lib : Stdlib) (h : hook ρ η)
    (ctx : Context) (req : AnnounceRequest) (r : ρ) (s : η) :
    (∀ a payload, h.aesGCM = some a → credentialOf ctx req ≠ "" →
        h.decrypt lib (credentialOf ctx req) = .ok payload →
        (h.HandleAnnounce lib ctx req r s).ctx = ctx.WithPayload payload
        ∧ (h.HandleAnnounce lib ctx req r s).ctx.PasskeyPayload = some payload
        ∧ (h.HandleAnnounce lib ctx req r s).ctx.RouteParams = ctx.RouteParams)
      ∧ ((¬ ∃ a payload, h.aesGCM = some a ∧ credentialOf ctx req ≠ ""
            ∧ h.decrypt lib (credentialOf ctx req) = .ok payload) →
          (h.HandleAnnounce lib ctx req r s).ctx = ctx)
      ∧ (ctx.PasskeyPayload = none →
          ((h.HandleAnnounce lib ctx req r s).ctx.PasskeyPayload ≠ none ↔
            ∃ a payload, h.aesGCM = some a ∧ credentialOf ctx req ≠ ""
              ∧ h.decrypt lib (credentialOf ctx req) = .ok payload)) := by
  have hyes : ∀ a payload, h.aesGCM = some a → credentialOf ctx req ≠ "" →
      h.decrypt lib (credentialOf ctx req) = .ok payload →
      (h.HandleAnnounce lib ctx req r s).ctx = ctx.WithPayload payload := by
    intro a payload hkey hcred hok
    rw [HandleAnnounce_ctx]
    unfold resolve
    simp [hkey, hcred, hok]
  have hno : (¬ ∃ a payload, h.aesGCM = some a ∧ credentialOf ctx req ≠ ""
      ∧ h.decrypt lib (credentialOf ctx req) = .ok payload) →
      (h.HandleAnnounce lib ctx req r s).ctx = ctx := by
    intro hn
    rw [HandleAnnounce_ctx]
    unfold resolve
    cases hkey : h.aesGCM with
    | none => by_cases hp : passkeyOf ctx req = "" <;> simp [hp]
    | some a =>
      by_cases hcred : credentialOf ctx req = ""
      · simp [hcred]
      · cases hd : h.decrypt lib (credentialOf ctx req) with
        | ok payload => exact absurd ⟨a, payload, hkey, hcred, hd⟩ hn
        | error e => simp [hcred, hd]
        | panic => simp [hcred, hd]
  refine ⟨fun a payload hkey hcred hok => ?_, hno, fun hin => ⟨fun hout => ?_, ?_⟩⟩
  · rw [hyes a payload hkey hcred hok]
    exact ⟨rfl, rfl, rfl⟩
  · by_contra hn
    rw [hno hn] at hout
    exact hout hin
  · rintro ⟨a, payload, hkey, hcred, hok⟩
    rw [hyes a payload hkey hcred hok]
    simp [Context.WithPayload]

/-- C13 on the stand-ins, as in case 1 of `TestHandleAnnounce_Encryption`: the
authority is unreachable, the outcome is `ErrUnapprovedPasskey`, and the
returned context carries the decrypted payload; a malformed credential leaves
the context without payload. -/
theorem payload_attached_run :
    ((sample.hookWith (some sample.aead) none "http://authority/check" 0
        sample.unreachable).HandleAnnounce sample.lib sample.background
        (sample.request [("credential",
          encrypt sample.lib sample.aead sample.nonce ⟨"validpasskey", 1234567890, .nil, .nil⟩)])
        [] 0).err = .error ErrUnapprovedPasskey
    ∧ ((sample.hookWith (some sample.aead) none "http://authority/check" 0
        sample.unreachable).HandleAnnounce sample.lib sample.background
        (sample.request [("credential",
          encrypt sample.lib sample.aead sample.nonce ⟨"validpasskey", 1234567890, .nil, .nil⟩)])
        [] 0).ctx.PasskeyPayload = some ⟨"validpasskey", 1234567890, .nil, .nil⟩
    ∧ ((sample.hookWith (some sample.aead) none "http://authority/check" 0
        sample.unreachable).HandleAnnounce sample.lib sample.background
        (sample.request [("credential", "garbage")]) [] 0).ctx.PasskeyPayload = none := by
  decide!

/-- The commands and requests of the cache and authority stages all carry the
passkey they were given. -/
theorem checkPasskey_uses_passkey {ρ η : Type} (lib : Stdlib) (h : hook ρ η) (ctx : Context)
    (passkey : String) (r : ρ) (s : η) :
    (∀ c ∈ commands (checkPasskey lib h ctx passkey [] r s).trace,
        c = .SISMEMBER h.cfg.SetKey passkey ∨ c = .SADD h.cfg.SetKey passkey
          ∨ c = .EXPIRE h.cfg.SetKey h.cfg.CacheTTLSeconds)
      ∧ (∀ q ∈ requests (checkPasskey lib h ctx passkey [] r s).trace,
          q = authorityRequest h.cfg (authorityURL lib h.cfg.HTTPURL passkey)) := by
  rw [checkPasskey_trace]
  have hl := lookup_events_eq h passkey r
  have hr := (remember_eq h passkey (lookup h passkey r).state).1
  have hc := consult_events_eq lib h passkey s
  constructor
  · intro c hc1
    simp only [List.nil_append, commands_append] at hc1
    rcases List.mem_append.1 hc1 with h1 | h1
    · rw [hl] at h1
      split_ifs at h1
      · simp [commands] at h1
        exact Or.inl h1
      · simp [commands] at h1
    · split_ifs at h1 with hh hv
      · simp [commands] at h1
      · simp only [commands_append, (consult_events lib h passkey s).2, List.nil_append] at h1
        rw [hr] at h1
        split_ifs at h1
        · simp [commands] at h1
          rcases h1 with h1 | h1
          · exact Or.inr (Or.inl h1)
          · exact Or.inr (Or.inr h1)
        · simp [commands] at h1
      · simp [commands_append, (consult_events lib h passkey s).2, commands] at h1
  · intro q hq
    simp only [List.nil_append, requests_append, (lookup_events h passkey r).2] at hq
    split_ifs at hq with hh hv
    · simp [requests] at hq
    · simp only [requests_append, (remember_events h passkey _).2, List.append_nil,
        List.nil_append] at hq
      rcases hc with he | he
      · rw [he] at hq; simp [requests] at hq
      · rw [he] at hq; simpa [requests] using hq
    · simp only [requests_append, List.append_nil, List.nil_append] at hq
      rcases hc with he | he
      · rw [he] at hq; simp [requests] at hq
      · rw [he] at hq; simpa [requests] using hq

/-- C14. Without an encryption key `decrypt` is never called,
`ErrInvalidPasskey` is never returned and the context is returned as it came;
a non-empty extracted string goes, as it stands, into the cache and authority
stage: every cache command names exactly that string and every authority
request is the one built from it. -/
theorem plaintext_passkey_used_verbatim {ρ η : Type} (lib : Stdlib) (h : hook ρ η)
    (ctx : Context) (req : AnnounceRequest) (r : ρ) (s : η) (hkey : h.aesGCM = none) :
    decrypted (h.HandleAnnounce lib ctx req r s).trace = []
      ∧ (h.HandleAnnounce lib ctx req r s).err ≠ .error ErrInvalidPasskey
      ∧ (h.HandleAnnounce lib ctx req r s).ctx = ctx
      ∧ (passkeyOf ctx req ≠ "" →
          h.HandleAnnounce lib ctx req r s = checkPasskey lib h ctx (passkeyOf ctx req) [] r s)
      ∧ (∀ c ∈ commands (h.HandleAnnounce lib ctx req r s).trace,
          c = .SISMEMBER h.cfg.SetKey (passkeyOf ctx req)
            ∨ c = .SADD h.cfg.SetKey (passkeyOf ctx req)
            ∨ c = .EXPIRE h.cfg.SetKey h.cfg.CacheTTLSeconds)
      ∧ (∀ q ∈ requests (h.HandleAnnounce lib ctx req r s).trace,
          q = authorityRequest h.cfg (authorityURL lib h.cfg.HTTPURL (passkeyOf ctx req))) := by
  by_cases hp : passkeyOf ctx req = ""
  · have hrun : h.HandleAnnounce lib ctx req r s = ⟨ctx, .error ErrMissingPasskey, [], r, s⟩ := by
      unfold hook.HandleAnnounce resolve
      simp [hkey, hp]
    rw [hrun]
    refine ⟨rfl, ?_, rfl, fun hx => absurd hp hx, ?_, ?_⟩
    · simp only [ne_eq, Status.error.injEq]
      exact fun hx => errors_distinct.1 hx.symm
    · intro c hc; simp [commands] at hc
    · intro q hq; simp [requests] at hq
  · have hrun : h.HandleAnnounce lib ctx req r s
        = checkPasskey lib h ctx (passkeyOf ctx req) [] r s :=
      HandleAnnounce_of_resolved lib h ctx req r s _ ctx [] (resolve_plain lib h ctx req hkey hp)
    rw [hrun]
    refine ⟨?_, ?_, checkPasskey_ctx lib h ctx _ [] r s, fun _ => rfl,
      (checkPasskey_uses_passkey lib h ctx _ r s).1, (checkPasskey_uses_passkey lib h ctx _ r s).2⟩
    · rw [checkPasskey_decrypted]; rfl
    · rw [checkPasskey_err]
      split_ifs
      · simp
      · simp only [ne_eq, Status.error.injEq]
        exact fun hx => errors_distinct.2.1 hx.symm

/-- C14 at a concrete request: a valid ciphertext sent as "passkey" to a hook
without key is looked up and sent to the authority as it stands. -/
theorem plaintext_passkey_used_verbatim_witness :
    (sample.hookWith none (some sample.setPool) "http://authority/check" 60
        sample.unreachable).HandleAnnounce sample.lib sample.background
        (sample.request [("passkey", "AQIDBAUGBwgJCgsM8_VbW1tbW1tbW1tbW1tbW1tb")]) [] 0
      = checkPasskey sample.lib
          (sample.hookWith none (some sample.setPool) "http://authority/check" 60
            sample.unreachable)
          sample.background "AQIDBAUGBwgJCgsM8_VbW1tbW1tbW1tbW1tbW1tb" [] [] 0 :=
  (plaintext_passkey_used_verbatim sample.lib
    (sample.hookWith none (some sample.setPool) "http://authority/check" 60 sample.unreachable)
    sample.background
    (sample.request [("passkey", "AQIDBAUGBwgJCgsM8_VbW1tbW1tbW1tbW1tbW1tb")]) [] 0
    rfl).2.2.2.1 (by decide!)

/-- C14 run on the stand-ins: the trace of that request. -/
theorem plaintext_ciphertext_run :
    ((sample.hookWith none (some sample.setPool) "http://authority/check" 60
        sample.unreachable).HandleAnnounce sample.lib sample.background
        (sample.request [("passkey", "AQIDBAUGBwgJCgsM8_VbW1tbW1tbW1tbW1tbW1tb")]) [] 0).trace
      = [.redis (.SISMEMBER "pt:passkeys" "AQIDBAUGBwgJCgsM8_VbW1tbW1tbW1tbW1tbW1tb"),
          .http ⟨"GET",
            "http://authority/check?passkey=AQIDBAUGBwgJCgsM8_VbW1tbW1tbW1tbW1tbW1tb", []⟩]
    ∧ ((sample.hookWith none (some sample.setPool) "http://authority/check" 60
        sample.unreachable).HandleAnnounce sample.lib sample.background
        (sample.request [("passkey", "AQIDBAUGBwgJCgsM8_VbW1tbW1tbW1tbW1tbW1tb")]) [] 0).err
      = .error ErrUnapprovedPasskey := by
  decide!

/-- An approving exchange with the authority consists of exactly one request. -/
theorem consult_events_of_approved {ρ η : Type} (lib : Stdlib) (h : hook ρ η)
    (passkey : String) (s : η) (hv : (consult lib h passkey s).approved = true) :
    (consult lib h passkey s).events
      = [.http (authorityRequest h.cfg (authorityURL lib h.cfg.HTTPURL passkey))] := by
  unfold consult at hv ⊢
  by_cases hu : h.cfg.HTTPURL = ""
  · simp [hu] at hv
  · simp only [ne_eq, hu, not_false_eq_true, if_true] at hv ⊢
    cases hn : lib.NewRequestErr (authorityURL lib h.cfg.HTTPURL passkey) with
    | some e => simp [hn] at hv
    | none =>
      rcases hd : h.httpClient.Do s
        (authorityRequest h.cfg (authorityURL lib h.cfg.HTTPURL passkey)) with ⟨⟨resp, err⟩, s1⟩
      cases err with
      | some e => simp [hn, hd] at hv
      | none =>
        cases resp with
        | none => simp [hn, hd] at hv
        | some resp => simp

/-- The lookup in the set-backed store: a membership test that leaves the
store as it is. -/
theorem lookup_setPool {η : Type} (h : hook (List (String × String)) η) (passkey : String)
    (r : List (String × String)) (hpool : h.pool = some sample.setPool) :
    lookup h passkey r
      = ⟨decide ((h.cfg.SetKey, passkey) ∈ r), [.redis (.SISMEMBER h.cfg.SetKey passkey)], r⟩ := by
  unfold lookup
  simp [hpool, sample.setPool]

/-- C12. A hook over the set-backed cache with a positive TTL, a request that
resolves to the passkey `P`, a cache that does not hold `P`, and an authority
that approves `P`: the first run returns `nil`, sends the authority one
request and leaves `P` in the cache set; the second run of the same request,
started from the states the first one left, returns `nil` on the cache hit
without any request to the authority, whose state stays as the first run left
it.  Over both runs the authority receives exactly one request. -/
theorem second_request_served_by_cache {η : Type} (lib : Stdlib)
    (h : hook (List (String × String)) η) (ctx : Context) (req : AnnounceRequest)
    (r : List (String × String)) (s : η) (passkey : String) (ctx1 : Context)
    (trace : List Event)
    (hres : resolve lib h ctx req = (.passkey passkey ctx1, trace))
    (hpool : h.pool = some sample.setPool) (httl : h.cfg.CacheTTLSeconds > 0)
    (hfresh : (h.cfg.SetKey, passkey) ∉ r)
    (happ : AuthorityApproves lib h passkey s) :
    (h.HandleAnnounce lib ctx req r s).err = .nil
      ∧ (h.cfg.SetKey, passkey) ∈ (h.HandleAnnounce lib ctx req r s).store
      ∧ (requests (h.HandleAnnounce lib ctx req r s).trace).length = 1
      ∧ (h.HandleAnnounce lib ctx req (h.HandleAnnounce lib ctx req r s).store
          (h.HandleAnnounce lib ctx req r s).authority).err = .nil
      ∧ requests (h.HandleAnnounce lib ctx req (h.HandleAnnounce lib ctx req r s).store
          (h.HandleAnnounce lib ctx req r s).authority).trace = []
      ∧ (h.HandleAnnounce lib ctx req (h.HandleAnnounce lib ctx req r s).store
          (h.HandleAnnounce lib ctx req r s).authority).authority
        = (h.HandleAnnounce lib ctx req r s).authority
      ∧ (requests ((h.HandleAnnounce lib ctx req r s).trace
          ++ (h.HandleAnnounce lib ctx req (h.HandleAnnounce lib ctx req r s).store
              (h.HandleAnnounce lib ctx req r s).authority).trace)).length = 1 := by
  have hreq : requests trace = [] := by
    have := (resolve_events lib h ctx req).2
    rw [hres] at this
    exact this
  have hv : (consult lib h passkey s).approved = true :=
    (consult_approved_iff_approves lib h passkey s).2 happ
  have hl1 : lookup h passkey r
      = ⟨false, [.redis (.SISMEMBER h.cfg.SetKey passkey)], r⟩ := by
    rw [lookup_setPool h passkey r hpool]
    simp [hfresh]
  have hrem : (remember h passkey r).2 = (h.cfg.SetKey, passkey) :: r := by
    rw [(remember_eq h passkey r).2.1 sample.setPool hpool httl]
    simp [sample.setPool, hfresh]
  have hrun1 : ∀ (r0 : List (String × String)) (s0 : η), h.HandleAnnounce lib ctx req r0 s0
      = checkPasskey lib h ctx1 passkey trace r0 s0 := by
    intro r0 s0
    exact HandleAnnounce_of_resolved lib h ctx req r0 s0 passkey ctx1 trace hres
  have hstore1 : (h.HandleAnnounce lib ctx req r s).store = (h.cfg.SetKey, passkey) :: r := by
    rw [hrun1, checkPasskey_store, hl1]
    simp [hv, hrem]
  have herr1 : (h.HandleAnnounce lib ctx req r s).err = .nil := by
    rw [hrun1, checkPasskey_err]
    simp [hv]
  have hreq1 : requests (h.HandleAnnounce lib ctx req r s).trace
      = [authorityRequest h.cfg (authorityURL lib h.cfg.HTTPURL passkey)] := by
    rw [hrun1, checkPasskey_trace, hl1]
    simp [hv, requests_append, hreq, consult_events_of_approved lib h passkey s hv, requests,
      (remember_events h passkey r).2]
  have hl2 : lookup h passkey ((h.cfg.SetKey, passkey) :: r)
      = ⟨true, [.redis (.SISMEMBER h.cfg.SetKey passkey)], (h.cfg.SetKey, passkey) :: r⟩ := by
    rw [lookup_setPool h passkey _ hpool]
    simp
  have hrun2 : ∀ s0 : η, h.HandleAnnounce lib ctx req ((h.cfg.SetKey, passkey) :: r) s0
      = ⟨ctx1, .nil, trace ++ [.redis (.SISMEMBER h.cfg.SetKey passkey)],
          (h.cfg.SetKey, passkey) :: r, s0⟩ := by
    intro s0
    rw [hrun1]
    unfold checkPasskey
    simp [hl2]
  have hreq2 : ∀ s0 : η, requests (h.HandleAnnounce lib ctx req ((h.cfg.SetKey, passkey) :: r)
      s0).trace = [] := by
    intro s0
    rw [hrun2 s0]
    simp [requests_append, hreq, requests]
  rw [hstore1]
  refine ⟨herr1, by simp, by rw [hreq1]; rfl, by rw [hrun2], hreq2 _, by rw [hrun2], ?_⟩
  rw [requests_append, hreq1, hreq2]
  rfl

/-- C12 at a concrete request: the passkey `P` in plaintext mode, an empty
cache and an authority that approves and counts its requests. -/
theorem second_request_served_by_cache_witness :
    ((sample.hookWith none (some sample.setPool) "http://authority/check" 60
        (sample.fixedClient (some ⟨200, sample.validBody⟩, none))).HandleAnnounce sample.lib
        sample.background (sample.request [("passkey", "P")]) [] 0).err = .nil
    ∧ ("pt:passkeys", "P") ∈ ((sample.hookWith none (some sample.setPool)
        "http://authority/check" 60
        (sample.fixedClient (some ⟨200, sample.validBody⟩, none))).HandleAnnounce sample.lib
        sample.background (sample.request [("passkey", "P")]) [] 0).store :=
  ⟨(second_request_served_by_cache sample.lib
      (sample.hookWith none (some sample.setPool) "http://authority/check" 60
        (sample.fixedClient (some ⟨200, sample.validBody⟩, none)))
      sample.background (sample.request [("passkey", "P")]) [] 0 "P" sample.background []
      (resolve_plain sample.lib _ sample.background (sample.request [("passkey", "P")]) rfl
        (by decide!))
      rfl (by decide) (by simp)
      ⟨by decide!, by decide!, ⟨200, sample.validBody⟩, rfl, by decide, by decide,
        by decide!⟩).1,
    (second_request_served_by_cache sample.lib
      (sample.hookWith none (some sample.setPool) "http://authority/check" 60
        (sample.fixedClient (some ⟨200, sample.validBody⟩, none)))
      sample.background (sample.request [("passkey", "P")]) [] 0 "P" sample.background []
      (resolve_plain sample.lib _ sample.background (sample.request [("passkey", "P")]) rfl
        (by decide!))
      rfl (by decide) (by simp)
      ⟨by decide!, by decide!, ⟨200, sample.validBody⟩, rfl, by decide, by decide,
        by decide!⟩).2.1⟩

/-- C12 run on the stand-ins: the counter of the authority is 1 after the
first run and still 1 after the second, whose only call is the lookup. -/
theorem two_requests_run :
    ((sample.hookWith none (some sample.setPool) "http://authority/check" 60
        (sample.fixedClient (some ⟨200, sample.validBody⟩, none))).HandleAnnounce sample.lib
        sample.background (sample.request [("passkey", "P")]) [] 0).authority = 1
    ∧ ((sample.hookWith none (some sample.setPool) "http://authority/check" 60
        (sample.fixedClient (some ⟨200, sample.validBody⟩, none))).HandleAnnounce sample.lib
        sample.background (sample.request [("passkey", "P")]) [("pt:passkeys", "P")] 1).authority
      = 1
    ∧ ((sample.hookWith none (some sample.setPool) "http://authority/check" 60
        (sample.fixedClient (some ⟨200, sample.validBody⟩, none))).HandleAnnounce sample.lib
        sample.background (sample.request [("passkey", "P")]) [("pt:passkeys", "P")] 1).trace
      = [.redis (.SISMEMBER "pt:passkeys" "P")]
    ∧ ((sample.hookWith none (some sample.setPool) "http://authority/check" 60
        (sample.fixedClient (some ⟨200, sample.validBody⟩, none))).HandleAnnounce sample.lib
        sample.background (sample.request [("passkey", "P")]) [("pt:passkeys", "P")] 1).err
      = .nil := by
  decide!

end passkeyapproval

namespace url

/-- The bytes of a string given by its characters, one character at a time. -/
theorem goBytes_append (a b : List Char) :
    goBytes (String.mk (a ++ b)) = goBytes (String.mk a) ++ goBytes (String.mk b) := by
  simp [goBytes]

/-- Every byte is written in a form that reads back as itself. -/
theorem escapeByte_readsBack :
    ∀ b : Fin 256, readsBack b (goBytes (String.mk (escapeByte b))) = true := by
  decide!

/-- No byte is written with a delimiter of the query string. -/
theorem escapeByte_no_delimiter :
    ∀ b : Fin 256, (escapeByte b).all (fun c => !delimiter c) = true := by
  decide!

/-- Reading back what was written for one byte, in front of more text. -/
theorem unescape_readsBack (b : Fin 256) (e rest t : Bytes) (he : readsBack b e = true)
    (hrest : unescape rest = .ok t) : unescape (e ++ rest) = .ok (b :: t) := by
  match e, he with
  | [c], he =>
    simp only [readsBack, decide_eq_true_eq] at he
    show unescape (c :: rest) = .ok (b :: t)
    unfold unescape
    rw [if_neg he.1, hrest, he.2]
  | [p, x, y], he =>
    simp only [readsBack, decide_eq_true_eq] at he
    show unescape (p :: x :: y :: rest) = .ok (b :: t)
    have hb : (⟨(unhex x * 16 + unhex y) % 256, Nat.mod_lt _ (by decide)⟩ : Fin 256) = b :=
      Fin.ext he.2.2.2
    unfold unescape
    rw [if_pos he.1]
    simp only [he.2.1, he.2.2.1, and_self, if_true, hrest, hb]

/-- Unescaping the escaped bytes gives the bytes back. -/
theorem unescape_escape (bs : Bytes) :
    unescape (goBytes (String.mk (bs.flatMap escapeByte))) = .ok bs := by
  induction bs with
  | nil => rfl
  | cons b t ih =>
    rw [List.flatMap_cons, goBytes_append]
    exact unescape_readsBack b _ _ t (escapeByte_readsBack b) ih

/-- Round trip of query escaping. -/
theorem QueryUnescape_QueryEscape (s : String) :
    QueryUnescape (QueryEscape s) = .ok (goBytes s) := by
  unfold QueryUnescape QueryEscape
  exact unescape_escape (goBytes s)

/-- An escaped string holds no delimiter of the query string. -/
theorem QueryEscape_no_delimiter (s : String) :
    ∀ c ∈ (QueryEscape s).toList, delimiter c = false := by
  intro c hc
  unfold QueryEscape at hc
  simp only [String.toList, List.mem_flatMap] at hc
  rcases hc with ⟨b, _, hb⟩
  have := escapeByte_no_delimiter b
  rw [List.all_eq_true] at this
  simpa using this c hb

end url

namespace passkeyapproval

open bittorrent

/-- Every authority request of a run that resolves to a passkey is the request
built from that passkey. -/
theorem HandleAnnounce_requests {ρ η : Type} (lib : Stdlib) (h : hook ρ η) (ctx : Context)
    (req : AnnounceRequest) (r : ρ) (s : η) (passkey : String) (ctx1 : Context)
    (trace : List Event) (hres : resolve lib h ctx req = (.passkey passkey ctx1, trace)) :
    ∀ q ∈ requests (h.HandleAnnounce lib ctx req r s).trace,
      q = authorityRequest h.cfg (authorityURL lib h.cfg.HTTPURL passkey) := by
  have hreq : requests trace = [] := by
    have := (resolve_events lib h ctx req).2
    rw [hres] at this
    exact this
  intro q hq
  rw [HandleAnnounce_of_resolved lib h ctx req r s passkey ctx1 trace hres,
    checkPasskey_trace] at hq
  simp only [requests_append, hreq, (lookup_events h passkey r).2, List.nil_append] at hq
  split_ifs at hq with hh hv
  · simp [requests] at hq
  · simp only [requests_append, (remember_events h passkey _).2, List.append_nil] at hq
    rcases consult_events_eq lib h passkey s with he | he
    · rw [he] at hq; simp [requests] at hq
    · rw [he] at hq; simpa [requests] using hq
  · simp only [requests_append, List.append_nil] at hq
    rcases consult_events_eq lib h passkey s with he | he
    · rw [he] at hq; simp [requests] at hq
    · rw [he] at hq; simpa [requests] using hq

/-- C17. With `url.QueryEscape` as the escaping function, the URL built for
the authority URL `u` and the passkey `p` is `u`, then `&` when `u` contains a
`?` and `?` when it does not, then `passkey=` and the query-escaped `p`.  So
`u`, with any query string it has, is a prefix of it; the escaped `p` holds no
delimiter of the query string and unescapes to the bytes of `p`.  Every
request `HandleAnnounce` sends for a resolved passkey goes to that URL. -/
theorem authority_url_appends_passkey (lib : Stdlib) (u p : String)
    (hlib : lib.QueryEscape = url.QueryEscape) :
    authorityURL lib u p
        = u ++ (if u.toList.contains '?' then "&" else "?") ++ "passkey=" ++ url.QueryEscape p
      ∧ u.toList <+: (authorityURL lib u p).toList
      ∧ url.QueryUnescape (url.QueryEscape p) = .ok (goBytes p)
      ∧ (∀ c ∈ (url.QueryEscape p).toList, url.delimiter c = false)
      ∧ (∀ (ρ η : Type) (h : hook ρ η) (ctx : Context) (req : AnnounceRequest) (r : ρ) (s : η)
          (ctx1 : Context) (trace : List Event), h.cfg.HTTPURL = u →
          resolve lib h ctx req = (.passkey p ctx1, trace) →
          ∀ q ∈ requests (h.HandleAnnounce lib ctx req r s).trace,
            q.Method = "GET" ∧ q.URL = authorityURL lib u p) := by
  have hkey : url.QueryEscape "passkey" = "passkey" := by decide!
  have hshape : authorityURL lib u p
      = u ++ (if u.toList.contains '?' then "&" else "?") ++ "passkey=" ++ url.QueryEscape p := by
    unfold authorityURL
    rw [hlib, hkey]
    have hk : "passkey" ++ "=" = "passkey=" := by decide
    by_cases hq : u.toList.contains '?' = true
    · simp only [hq, if_true]
      rw [← hk]
      simp only [String.append_assoc]
    · have hq2 : u.toList.contains '?' = false := by simpa using hq
      simp only [hq2, Bool.false_eq_true, if_false]
      rw [← hk]
      simp only [String.append_assoc]
  refine ⟨hshape, ?_, url.QueryUnescape_QueryEscape p, url.QueryEscape_no_delimiter p, ?_⟩
  · rw [hshape]
    simp only [String.toList, String.data_append, List.append_assoc]
    exact List.prefix_append _ _
  · intro ρ η h ctx req r s ctx1 trace hu hres q hq
    have := HandleAnnounce_requests lib h ctx req r s p ctx1 trace hres q hq
    rw [this, hu]
    exact ⟨rfl, rfl⟩

/-- C17 at concrete URLs: one without and one with a query string, and a
passkey with characters to escape. -/
theorem authority_url_appends_passkey_witness :
    authorityURL { sample.lib with QueryEscape := url.QueryEscape }
        "http://authority/check" "a b&c=d"
      = "http://authority/check?passkey=a+b%26c%3Dd"
    ∧ authorityURL { sample.lib with QueryEscape := url.QueryEscape }
        "http://authority/check?site=1" "a b&c=d"
      = "http://authority/check?site=1&passkey=a+b%26c%3Dd" :=
  ⟨((authority_url_appends_passkey { sample.lib with QueryEscape := url.QueryEscape }
      "http://authority/check" "a b&c=d" rfl).1).trans (by decide!),
    ((authority_url_appends_passkey { sample.lib with QueryEscape := url.QueryEscape }
      "http://authority/check?site=1" "a b&c=d" rfl).1).trans (by decide!)⟩

end passkeyapproval

namespace passkeyapproval

/-- The defaults touch neither the encryption key nor the connection string. -/
theorem withDefaults_keeps (cfg : Config) :
    (withDefaults cfg).EncryptionKey = cfg.EncryptionKey
      ∧ (withDefaults cfg).RedisBroker = cfg.RedisBroker := by
  unfold withDefaults
  by_cases h1 : cfg.SetKey = "" <;> by_cases h2 : cfg.HTTPTimeout ≤ 0
    <;> by_cases h3 : cfg.HTTPAPIKeyHeader = "" <;> simp [h1, h2, h3]

/-- With an empty or valid connection string the pool is built without error. -/
theorem newPool_ok {ρ η : Type} (env : Setup ρ η) (cfg : Config)
    (hbroker : cfg.RedisBroker = "" ∨ ∃ ru, parseRedisURL env cfg.RedisBroker = .ok ru) :
    ∃ p, newPool env (withDefaults cfg) = .ok p := by
  unfold newPool
  rw [(withDefaults_keeps cfg).2]
  rcases hbroker with hb | ⟨ru, hru⟩
  · simp [hb]
  · by_cases hb : cfg.RedisBroker = ""
    · simp [hb]
    · simp [hb, hru]

/-- C15. For a configuration whose connection string is empty or valid, and
with `aes.NewCipher` accepting every 32-byte key and `cipher.NewGCM` accepting
the blocks it produces, `NewHook` returns an error exactly when the encryption
key is non-empty and not 32 bytes long; with an empty key it returns a hook
without cipher (plaintext mode), with a 32-byte key a hook with a cipher
(encryption mode). -/
theorem NewHook_error_iff {ρ η : Type} (env : Setup ρ η) (cfg : Config)
    (hbroker : cfg.RedisBroker = "" ∨ ∃ ru, parseRedisURL env cfg.RedisBroker = .ok ru)
    (hcipher : ∀ key : Bytes, key.length = 32 → ∃ block, env.NewCipher key = .ok block)
    (hgcm : ∀ key block, env.NewCipher key = .ok block → ∃ aead, env.NewGCM block = .ok aead) :
    ((∃ err, NewHook env cfg = .error err) ↔
        (cfg.EncryptionKey ≠ "" ∧ (goBytes cfg.EncryptionKey).length ≠ 32))
      ∧ (cfg.EncryptionKey = "" → ∃ h, NewHook env cfg = .ok h ∧ h.aesGCM = none)
      ∧ ((goBytes cfg.EncryptionKey).length = 32 →
          ∃ h aead, NewHook env cfg = .ok h ∧ h.aesGCM = some aead) := by
  rcases newPool_ok env cfg hbroker with ⟨p, hp⟩
  have hkeep := (withDefaults_keeps cfg).1
  by_cases hempty : cfg.EncryptionKey = ""
  · have haead : newAEAD env (withDefaults cfg) = .ok none := by
      unfold newAEAD
      simp [hkeep, hempty]
    have hrun : NewHook env cfg
        = .ok { cfg := withDefaults cfg, pool := p,
                httpClient := env.Client (withDefaults cfg).HTTPTimeout, aesGCM := none } := by
      unfold NewHook
      simp [haead, hp]
    refine ⟨⟨fun ⟨err, he⟩ => ?_, fun hx => absurd hempty hx.1⟩, fun _ => ⟨_, hrun, rfl⟩,
      fun hlen => ?_⟩
    · rw [hrun] at he; cases he
    · rw [hempty] at hlen
      exact absurd hlen (by decide)
  · by_cases hlen : (goBytes cfg.EncryptionKey).length = 32
    · rcases hcipher _ hlen with ⟨block, hblock⟩
      rcases hgcm _ block hblock with ⟨aead, hg⟩
      have haead : newAEAD env (withDefaults cfg) = .ok (some aead) := by
        unfold newAEAD
        simp [hkeep, hempty, hlen, hblock, hg]
      have hrun : NewHook env cfg
          = .ok { cfg := withDefaults cfg, pool := p,
                  httpClient := env.Client (withDefaults cfg).HTTPTimeout,
                  aesGCM := some aead } := by
        unfold NewHook
        simp [haead, hp]
      refine ⟨⟨fun ⟨err, he⟩ => ?_, fun hx => absurd hlen hx.2⟩, fun hx => absurd hx hempty,
        fun _ => ⟨_, aead, hrun, rfl⟩⟩
      rw [hrun] at he; cases he
    · have haead : newAEAD env (withDefaults cfg) = .error "encryption_key must be 32 bytes" := by
        unfold newAEAD
        simp [hkeep, hempty, hlen]
      have hrun : NewHook env cfg = .error "encryption_key must be 32 bytes" := by
        unfold NewHook
        simp [haead]
      exact ⟨⟨fun _ => ⟨hempty, hlen⟩, fun _ => ⟨_, hrun⟩⟩, fun hx => absurd hx hempty,
        fun hx => absurd hx hlen⟩

/-- The stand-in `NewCipher` accepts every 32-byte key. -/
theorem sample_NewCipher_ok (key : Bytes) (hlen : key.length = 32) :
    ∃ block, sample.setup.NewCipher key = .ok block := by
  simp [sample.setup, hlen]

/-- The stand-in `NewGCM` accepts the blocks of the stand-in `NewCipher`. -/
theorem sample_NewGCM_ok (key : Bytes) (block : cipher.Block)
    (hb : sample.setup.NewCipher key = .ok block) :
    ∃ aead, sample.setup.NewGCM block = .ok aead := by
  simp only [sample.setup] at hb ⊢
  split_ifs at hb
  · cases hb
    exact ⟨sample.aead, by simp⟩

/-- C15 at the configuration of `TestEncryptDecrypt`: only the 32-byte key
`01234567890123456789012345678901`; `NewHook` returns a hook in encryption
mode. -/
theorem NewHook_error_iff_witness :
    ∃ h aead, NewHook sample.setup
        { sample.cfg with
          SetKey := "", HTTPTimeout := 0, HTTPAPIKeyHeader := "",
          EncryptionKey := "01234567890123456789012345678901" } = .ok h
      ∧ h.aesGCM = some aead :=
  (NewHook_error_iff sample.setup
    { sample.cfg with
      SetKey := "", HTTPTimeout := 0, HTTPAPIKeyHeader := "",
      EncryptionKey := "01234567890123456789012345678901" }
    (Or.inl rfl) sample_NewCipher_ok sample_NewGCM_ok).2.2 (by decide!)

/-- `NewHook` run on the stand-ins: a 5-byte key is refused, a key of 32
characters that take 33 bytes is refused, an empty key gives plaintext mode, a
32-byte key encryption mode, and a connection string without the `redis`
scheme is refused. -/
theorem NewHook_run :
    sample.modeOf (NewHook sample.setup { sample.cfg with EncryptionKey := "short" }) = "error"
    ∧ sample.modeOf (NewHook sample.setup
        { sample.cfg with EncryptionKey := "0123456789012345678901234567890é" }) = "error"
    ∧ sample.modeOf (NewHook sample.setup sample.cfg) = "plaintext"
    ∧ sample.modeOf (NewHook sample.setup
        { sample.cfg with EncryptionKey := "01234567890123456789012345678901" }) = "encryption"
    ∧ sample.modeOf (NewHook sample.setup
        { sample.cfg with RedisBroker := "http://127.0.0.1:6379" }) = "error" := by
  decide!

end passkeyapproval

namespace peerlimit

open bittorrent

/-- The loop finds a peer exactly when some member differs from `peerID`. -/
theorem existingPeer_isSome_iff (members : List String) (peerID : String) :
    (∃ m, existingPeer members peerID = some m) ↔ ∃ m ∈ members, m ≠ peerID := by
  induction members with
  | nil => simp [existingPeer]
  | cons a t ih =>
    unfold existingPeer
    by_cases ha : a = peerID
    · simp [ha, ih]
    · simp only [ne_eq, ha, not_false_eq_true, if_true, Option.some.injEq, exists_eq',
        List.mem_cons, true_iff]
      exact ⟨a, Or.inl rfl, ha⟩

/-- The loop finds no peer exactly when every member is `peerID`. -/
theorem existingPeer_eq_none_iff (members : List String) (peerID : String) :
    existingPeer members peerID = none ↔ ∀ m ∈ members, m = peerID := by
  induction members with
  | nil => simp [existingPeer]
  | cons a t ih =>
    unfold existingPeer
    by_cases ha : a = peerID
    · simp [ha, ih]
    · simp [ha]

/-- The run of an announce against the explicit limit sets, branch by branch:
skipped without passkey, `SREM` on `Stopped`, allowed when the fetch fails,
rejected when the loop finds another peer, and otherwise the transaction. -/
theorem run_cases (o : Outcome) (h : hook (String → List String))
    (ctx : passkeyapproval.Context) (req : AnnounceRequest) (r : String → List String)
    (hpool : h.pool = some (limitStore o)) :
    (passkeyOf ctx req = "" → h.HandleAnnounce ctx req r = ⟨ctx, none, [], r⟩)
    ∧ (passkeyOf ctx req ≠ "" → req.Event = Event.Stopped →
        h.HandleAnnounce ctx req r
          = ⟨ctx, none, [.SREM (limitKey h.cfg (passkeyOf ctx req) req.InfoHash) req.Peer.ID],
              ((limitStore o).SREM r (limitKey h.cfg (passkeyOf ctx req) req.InfoHash)
                req.Peer.ID).2⟩)
    ∧ (passkeyOf ctx req ≠ "" → req.Event ≠ Event.Stopped → o.smembersErr ≠ none →
        h.HandleAnnounce ctx req r
          = ⟨ctx, none, [.SMEMBERS (limitKey h.cfg (passkeyOf ctx req) req.InfoHash)], r⟩)
    ∧ (passkeyOf ctx req ≠ "" → req.Event ≠ Event.Stopped → o.smembersErr = none →
        (∃ m, existingPeer (r (limitKey h.cfg (passkeyOf ctx req) req.InfoHash)) req.Peer.ID
          = some m) →
        h.HandleAnnounce ctx req r
          = ⟨ctx, some "connection limit reached for this torrent",
              [.SMEMBERS (limitKey h.cfg (passkeyOf ctx req) req.InfoHash)], r⟩)
    ∧ (passkeyOf ctx req ≠ "" → req.Event ≠ Event.Stopped → o.smembersErr = none →
        existingPeer (r (limitKey h.cfg (passkeyOf ctx req) req.InfoHash)) req.Peer.ID = none →
        h.HandleAnnounce ctx req r
          = ⟨ctx, none,
              [.SMEMBERS (limitKey h.cfg (passkeyOf ctx req) req.InfoHash), .MULTI,
                .SADD (limitKey h.cfg (passkeyOf ctx req) req.InfoHash) req.Peer.ID,
                .EXPIRE (limitKey h.cfg (passkeyOf ctx req) req.InfoHash) (lifetimeSeconds h.cfg),
                .EXEC],
              ((limitStore o).EXEC r (limitKey h.cfg (passkeyOf ctx req) req.InfoHash)
                req.Peer.ID (lifetimeSeconds h.cfg)).2⟩) := by
  refine ⟨?_, ?_, ?_, ?_, ?_⟩
  · intro hp
    unfold hook.HandleAnnounce
    simp [hpool, hp]
  · intro hp hs
    unfold hook.HandleAnnounce
    simp [hpool, hp, hs]
  · intro hp hs he
    unfold hook.HandleAnnounce
    cases hev : o.smembersErr with
    | none => exact absurd hev he
    | some e => simp [hpool, hp, hs, limitStore, hev]
  · rintro hp hs he ⟨m, hm⟩
    unfold hook.HandleAnnounce
    simp [hpool, hp, hs, limitStore, he, hm]
  · intro hp hs he hm
    unfold hook.HandleAnnounce
    simp [hpool, hp, hs, limitStore, he, hm]

/-- Removing a member keeps a set with at most one peer ID so. -/
theorem atMostOne_filter (members : List String) (q : String → Bool)
    (hm : atMostOne members) : atMostOne (members.filter q) := by
  intro a ha b hb
  exact hm a (List.mem_of_mem_filter ha) b (List.mem_of_mem_filter hb)

/-- C16. Against the limit sets as explicit state, for every event and every
outcome of the Redis commands: every set that held at most one peer ID before
`HandleAnnounce` holds at most one afterwards.  When a passkey is found and
the event is not `Stopped`, the announce of peer `p` is rejected exactly when
the fetched set has a member other than `p`, and is allowed, with the sets
untouched, when the fetch fails.  A rejected announce changes no set, and `p`
enters a set only through an accepted announce: no error, event not `Stopped`,
fetch succeeded, no other member, and the set is the one of the announce. -/
theorem peer_limit_keeps_at_most_one (o : Outcome) (h : hook (String → List String))
    (ctx : passkeyapproval.Context) (req : AnnounceRequest) (r : String → List String)
    (hpool : h.pool = some (limitStore o)) :
    (∀ key, atMostOne (r key) → atMostOne ((h.HandleAnnounce ctx req r).store key))
    ∧ (passkeyOf ctx req ≠ "" → req.Event ≠ Event.Stopped → o.smembersErr = none →
        ((h.HandleAnnounce ctx req r).err ≠ none ↔
          ∃ m ∈ r (limitKey h.cfg (passkeyOf ctx req) req.InfoHash), m ≠ req.Peer.ID))
    ∧ (passkeyOf ctx req ≠ "" → req.Event ≠ Event.Stopped → o.smembersErr ≠ none →
        (h.HandleAnnounce ctx req r).err = none ∧ (h.HandleAnnounce ctx req r).store = r)
    ∧ ((h.HandleAnnounce ctx req r).err ≠ none → (h.HandleAnnounce ctx req r).store = r)
    ∧ (∀ key, req.Peer.ID ∈ (h.HandleAnnounce ctx req r).store key → req.Peer.ID ∉ r key →
        (h.HandleAnnounce ctx req r).err = none ∧ req.Event ≠ Event.Stopped
          ∧ o.smembersErr = none
          ∧ key = limitKey h.cfg (passkeyOf ctx req) req.InfoHash
          ∧ ∀ m ∈ r key, m = req.Peer.ID) := by
  rcases run_cases o h ctx req r hpool with ⟨hskip, hstop, hfail, hrej, hacc⟩
  by_cases hp : passkeyOf ctx req = ""
  · rw [hskip hp]
    exact ⟨fun key hk => hk, fun hx => absurd hp hx, fun hx => absurd hp hx, fun _ => rfl,
      fun key hin hout => absurd hin hout⟩
  · by_cases hs : req.Event = Event.Stopped
    · rw [hstop hp hs]
      refine ⟨fun key hk => ?_, fun _ hx => absurd hs hx, fun _ hx => absurd hs hx,
        fun hx => absurd rfl hx, fun key hin hout => ?_⟩
      · simp only [limitStore]
        by_cases ha : o.sremApplied = true
        · simp only [ha, if_true]
          by_cases hkey : key = limitKey h.cfg (passkeyOf ctx req) req.InfoHash
          · simp only [hkey, if_true]
            exact atMostOne_filter _ _ (hkey ▸ hk)
          · simpa only [hkey, if_false] using hk
        · simpa only [ha, if_false] using hk
      · exfalso
        simp only [limitStore] at hin
        by_cases ha : o.sremApplied = true
        · simp only [ha, if_true] at hin
          by_cases hkey : key = limitKey h.cfg (passkeyOf ctx req) req.InfoHash
          · simp [hkey] at hin
          · simp only [hkey, if_false] at hin
            exact hout hin
        · simp only [ha, if_false] at hin
          exact hout hin
    · by_cases he : o.smembersErr = none
      swap
      · rw [hfail hp hs he]
        exact ⟨fun key hk => hk, fun _ _ hx => absurd hx he, fun _ _ _ => ⟨rfl, rfl⟩,
          fun _ => rfl, fun key hin hout => absurd hin hout⟩
      · cases hx : existingPeer (r (limitKey h.cfg (passkeyOf ctx req) req.InfoHash)) req.Peer.ID
          with
        | some m =>
          have hother := (existingPeer_isSome_iff _ _).1 ⟨m, hx⟩
          rw [hrej hp hs he ⟨m, hx⟩]
          refine ⟨fun key hk => hk, fun _ _ _ => ⟨fun _ => hother, fun _ => ?_⟩,
            fun _ _ hn => absurd he hn, fun _ => rfl, fun key hin hout => absurd hin hout⟩
          simp
        | none =>
          have hall := (existingPeer_eq_none_iff _ _).1 hx
          rw [hacc hp hs he hx]
          refine ⟨fun key hk => ?_, fun _ _ _ => ⟨fun hn => absurd rfl hn, ?_⟩,
            fun _ _ hn => absurd he hn, fun hn => absurd rfl hn, fun key hin hout => ?_⟩
          · simp only [limitStore]
            by_cases ha : o.execApplied = true
            · simp only [ha, if_true]
              by_cases hkey : key = limitKey h.cfg (passkeyOf ctx req) req.InfoHash
              · simp only [hkey, if_true]
                by_cases hmem :
                    req.Peer.ID ∈ r (limitKey h.cfg (passkeyOf ctx req) req.InfoHash)
                · simp only [hmem, if_true]
                  exact hkey ▸ hk
                · simp only [hmem, if_false]
                  intro a ha1 b hb1
                  have ha2 : a = req.Peer.ID := by
                    rcases List.mem_cons.1 ha1 with h1 | h1
                    · exact h1
                    · exact hall a h1
                  have hb2 : b = req.Peer.ID := by
                    rcases List.mem_cons.1 hb1 with h1 | h1
                    · exact h1
                    · exact hall b h1
                  rw [ha2, hb2]
              · simpa only [hkey, if_false] using hk
            · simpa only [ha, if_false] using hk
          · rintro ⟨m, hm, hne⟩
            exact absurd (hall m hm) hne
          · have hkey : key = limitKey h.cfg (passkeyOf ctx req) req.InfoHash := by
              by_contra hkey
              simp only [limitStore] at hin
              by_cases ha : o.execApplied = true
              · simp only [ha, if_true, hkey, if_false] at hin
                exact hout hin
              · simp only [ha, if_false] at hin
                exact hout hin
            refine ⟨rfl, hs, he, hkey, ?_⟩
            rw [hkey]
            exact hall

/-- C16 at a concrete announce: peer `B` announces while peer `A` holds the
set and is rejected. -/
theorem peer_limit_keeps_at_most_one_witness :
    ((sample.hookFor sample.allFine).HandleAnnounce passkeyapproval.sample.background
        (sample.announce Event.Started "B") sample.held).err ≠ none :=
  ((peer_limit_keeps_at_most_one sample.allFine (sample.hookFor sample.allFine)
    passkeyapproval.sample.background (sample.announce Event.Started "B") sample.held rfl).2.1
    (by decide!) (by decide) rfl).2 ⟨"A", by decide!, by decide⟩

/-- The peer limit run on concrete announces against the set `[A]`: peer `A`
announces again and is accepted (the set stays `[A]`), peer `B` is rejected
and the set stays `[A]`, peer `B` is allowed when the fetch fails, and
`Stopped` from peer `A` empties the set. -/
theorem peer_limit_run :
    ((sample.hookFor sample.allFine).HandleAnnounce passkeyapproval.sample.background
        (sample.announce Event.None "A") sample.held).store "tracker:limit:pk:ih" = ["A"]
    ∧ ((sample.hookFor sample.allFine).HandleAnnounce passkeyapproval.sample.background
        (sample.announce Event.Started "B") sample.held).err
      = some "connection limit reached for this torrent"
    ∧ ((sample.hookFor sample.allFine).HandleAnnounce passkeyapproval.sample.background
        (sample.announce Event.Started "B") sample.held).store "tracker:limit:pk:ih" = ["A"]
    ∧ ((sample.hookFor sample.fetchFails).HandleAnnounce passkeyapproval.sample.background
        (sample.announce Event.Started "B") sample.held).err = none
    ∧ ((sample.hookFor sample.allFine).HandleAnnounce passkeyapproval.sample.background
        (sample.announce Event.Stopped "A") sample.held).store "tracker:limit:pk:ih" = [] := by
  decide!

/-- The argument of `EXPIRE` on concrete lifetimes: 1800 for thirty minutes;
16777217 for 16777216.999999999 seconds, which the `float64` sum rounds up to
the next whole second before the fraction is discarded; 0 for a lifetime just
below one second. -/
theorem lifetime_seconds_run :
    lifetimeSeconds ⟨"", "", 1800000000000, 0, 0, 0⟩ = 1800
    ∧ lifetimeSeconds ⟨"", "", 16777216999999999, 0, 0, 0⟩ = 16777217
    ∧ lifetimeSeconds ⟨"", "", 999999999, 0, 0, 0⟩ = 0
    ∧ ((sample.hookFor sample.allFine).HandleAnnounce passkeyapproval.sample.background
        (sample.announce Event.None "A") sample.held).trace
      = [.SMEMBERS "tracker:limit:pk:ih", .MULTI, .SADD "tracker:limit:pk:ih" "A",
          .EXPIRE "tracker:limit:pk:ih" 1800, .EXEC] := by
  decide!

end peerlimit

namespace trafficpush

open bittorrent

/-- The delta of one counter: the exact difference when the counter did not go
back, the counter itself when it did; the `uint64` subtraction is only taken
where it does not wrap. -/
theorem delta_eq (current last : Nat) (hc : current < 2 ^ 64) (hl : last < 2 ^ 64) :
    delta current last = (if last ≤ current then current - last else current)
      ∧ (last ≤ current → sub64 current last = current - last)
      ∧ delta current last ≤ current
      ∧ delta current last < 2 ^ 64 := by
  unfold delta sub64
  by_cases h : last ≤ current
  · have hsub : (current + 2 ^ 64 - last) % 2 ^ 64 = current - last := by omega
    rw [if_pos h, if_pos h, hsub]
    exact ⟨rfl, fun _ => rfl, by omega, by omega⟩
  · rw [if_neg h, if_neg h]
    exact ⟨rfl, fun hx => absurd hx h, Nat.le_refl _, hc⟩

/-- C18. For all `uint64` values of the counters and of their last values, the
upload delta `du` is `uploaded - lastUp` when `uploaded >= lastUp` and
`uploaded` otherwise, and the download delta `dd` is the same with
`downloaded` and `lastDown`; the subtraction is taken only where it does not
wrap modulo 2^64, so `du <= uploaded` and `dd <= downloaded`; these are the
values pushed when the announce is pushed. -/
theorem deltas_never_wrap (req : AnnounceRequest) (last : Last)
    (hup : req.Uploaded < 2 ^ 64) (hdown : req.Downloaded < 2 ^ 64)
    (hlastUp : last.lastUp < 2 ^ 64) (hlastDown : last.lastDown < 2 ^ 64) :
    (deltas req last).1
        = (if last.lastUp ≤ req.Uploaded then req.Uploaded - last.lastUp else req.Uploaded)
      ∧ (deltas req last).2
        = (if last.lastDown ≤ req.Downloaded then req.Downloaded - last.lastDown
            else req.Downloaded)
      ∧ (last.lastUp ≤ req.Uploaded →
          sub64 req.Uploaded last.lastUp = req.Uploaded - last.lastUp)
      ∧ (last.lastDown ≤ req.Downloaded →
          sub64 req.Downloaded last.lastDown = req.Downloaded - last.lastDown)
      ∧ (deltas req last).1 ≤ req.Uploaded
      ∧ (deltas req last).2 ≤ req.Downloaded
      ∧ (∀ du dd, pushed req last = some (du, dd) → (du, dd) = deltas req last) := by
  have hu := delta_eq req.Uploaded last.lastUp hup hlastUp
  have hd := delta_eq req.Downloaded last.lastDown hdown hlastDown
  refine ⟨hu.1, hd.1, hu.2.1, hd.2.1, hu.2.2.1, hd.2.2.1, ?_⟩
  intro du dd hpush
  unfold pushed at hpush
  simp only [] at hpush
  split_ifs at hpush
  simpa using hpush.symm

/-- C18 at concrete counters: a counter that grew, and a counter that went
back after a restart of the client. -/
theorem deltas_never_wrap_witness :
    (deltas { Params := none, Uploaded := 1500, Downloaded := 40 } ⟨1000, 18446744073709551615, 0⟩).1
        = (if 1000 ≤ 1500 then 1500 - 1000 else 1500)
      ∧ (deltas { Params := none, Uploaded := 1500, Downloaded := 40 }
          ⟨1000, 18446744073709551615, 0⟩).2
        = (if 18446744073709551615 ≤ 40 then 40 - 18446744073709551615 else 40) :=
  ⟨(deltas_never_wrap { Params := none, Uploaded := 1500, Downloaded := 40 }
      ⟨1000, 18446744073709551615, 0⟩ (by decide) (by decide) (by decide) (by decide)).1,
    (deltas_never_wrap { Params := none, Uploaded := 1500, Downloaded := 40 }
      ⟨1000, 18446744073709551615, 0⟩ (by decide) (by decide) (by decide) (by decide)).2.1⟩

/-- The deltas run on concrete counters: 500 and 40 are pushed for the
counters above; nothing is pushed for unchanged counters and no event. -/
theorem deltas_run :
    pushed { Params := none, Uploaded := 1500, Downloaded := 40 }
        ⟨1000, 18446744073709551615, 0⟩ = some (500, 40)
    ∧ pushed { Params := none, Uploaded := 1500, Downloaded := 40 } ⟨1500, 40, 0⟩ = none
    ∧ pushed { Params := none, Event := Event.Stopped, Uploaded := 1500, Downloaded := 40 }
        ⟨1500, 40, 0⟩ = some (0, 0) := by
  decide!

end trafficpush
